import Mathlib

/-! vcprompt: the git and svn back ends.

A shallow embedding of `src/git.c` and `src/svn.c`, and properties of
`get_branch_name`, `git_get_info`, `svn_read_custom`, `svn_read_xml` and
`svn_get_info`.

* A C string is a `List Char`; every `Char` stands for one byte (one C `char`).
  The terminating NUL is not part of the list.  Bytes read from a file may
  contain NUL: `cstr` gives the C string that a buffer holding those bytes
  denotes.
* Code whose behaviour is undefined in C (a read outside an allocated object,
  a NULL dereference) yields `Outcome.fault`.
* The file system, the process working directory and the children started
  through `capture_child` are explicit arguments: directories are numbered, and
  `git_get_info` returns the working directory it leaves the process in.
* common.c and capture.c are outside the embedded sources.  Their functions
  (`read_first_line`, `chop_newline`, `isfile`, `isdir`, `init_result`,
  `result_set_branch`, `result_set_revision`, `capture_child`) are modelled from
  the specification; memory allocation is taken to succeed.
-/

namespace Vcprompt

/-! ## C strings -/

/-- The terminating byte of a C string. -/
def NUL : Char := Char.ofNat 0

/-- The line terminator `'\n'`. -/
def NL : Char := Char.ofNat 10

/-- The C string held by a buffer whose bytes are `b` followed by a NUL:
everything before the first NUL byte. -/
def cstr (b : List Char) : List Char := b.takeWhile (fun c => c != NUL)

/-- Result of running C code: either undefined behaviour was reached
(`fault`), or the code returned a value. -/
inductive Outcome (α : Type) where
  | fault : Outcome α
  | ret : α → Outcome α
  deriving DecidableEq, Repr

/-- `strcmp(a, b) == 0`. -/
def strcmp_eq (a b : List Char) : Bool := a == b

/-- `strncmp(a, b, n) == 0`: the first `n` characters agree (a string that
ends earlier only agrees with a string that ends at the same place). -/
def strncmp_eq (a b : List Char) (n : Nat) : Bool := a.take n == b.take n

/-- `strchr(s, c)` as the offset of the first `c` in `s`; `none` is NULL. -/
def strchr : List Char → Char → Option Nat
  | [], _ => none
  | x :: xs, c => if x = c then some 0 else (strchr xs c).map (· + 1)

/-- `strndup(s, n)`: a copy of at most `n` characters of `s`. -/
def strndup (s : List Char) (n : Nat) : List Char := s.take n

/-! ## svn.c: branch name of a repository path -/

/-- `get_branch_name` (svn.c 31-60).  `none` is the NULL return. -/
def get_branch_name (repos_path : List Char) : Option (List Char) :=
  if strcmp_eq repos_path "trunk".toList then
    some repos_path
  else if strncmp_eq repos_path "trunk/".toList 6 then
    some (strndup repos_path 5)
  else if strcmp_eq repos_path "branches".toList || strcmp_eq repos_path "tags".toList then
    none
  else if strncmp_eq repos_path "branches/".toList 9 then
    -- slash2 = strchr(repos_path + 9, '/')
    match strchr (repos_path.drop 9) '/' with
    | none => some (repos_path.drop 9)
    | some k =>
      -- slash2 - repos_path = 9 + k; the length argument is slash2 - repos_path + 9
      some (strndup (repos_path.drop 9) ((9 + k) + 9))
  else
    none

/-! ## Reading text files -/

/-- The bytes one `fgets` call takes from the stream when the buffer has room
for `n` bytes besides the terminator: it stops after a newline, after `n`
bytes, or at the end of the stream.  Returns the bytes and the rest. -/
def read_chunk : Nat → List Char → List Char × List Char
  | 0, s => ([], s)
  | _, [] => ([], [])
  | n + 1, c :: cs =>
    if c = NL then ([c], cs)
    else (c :: (read_chunk n cs).1, (read_chunk n cs).2)

/-- `fgets(line, size, fp)`: `none` is the NULL return (nothing left to read);
otherwise the C string now in `line` and the rest of the stream. -/
def fgets (size : Nat) (fp : List Char) : Option (List Char × List Char) :=
  match fp with
  | [] => none
  | _ :: _ => some (cstr (read_chunk (size - 1) fp).1, (read_chunk (size - 1) fp).2)

/-- Modelled from the spec: `chop_newline` of common.c, on the value of the
string: a trailing newline is stripped. -/
def chop_newline (s : List Char) : List Char :=
  if s.getLast? = some NL then s.dropLast else s

/-- The bytes of the object `strdup(s)` allocates: the string and its
terminator. -/
def strdup_obj (s : List Char) : List Char := s ++ [NUL]

/-- Modelled from the spec: `chop_newline` of common.c, on the bytes of the
object that holds the string: a trailing newline is overwritten in place by
NUL; the object keeps its size. -/
def chop_newline_obj (b : List Char) : List Char :=
  if (cstr b).getLast? = some NL then b.set ((cstr b).length - 1) NUL else b

/-- The C string that starts `k` bytes into the object with bytes `b`;
`none` when that address lies outside the object. -/
def obj_str (b : List Char) (k : Nat) : Option (List Char) :=
  if k < b.length then some (cstr (b.drop k)) else none

/-- The lines of a text file: the runs between newlines; a newline at the very
end does not start a further line. -/
def fileLines : List Char → List (List Char)
  | [] => []
  | c :: cs =>
    if c = NL then [] :: fileLines cs
    else
      match fileLines cs with
      | [] => [[c]]
      | l :: ls => (c :: l) :: ls

/-! ## The result record (common.h) -/

/-- The record `result_t`: NULL strings are `none`, the two flags are the C
`int`s used as booleans. -/
structure result_t where
  branch : Option (List Char)
  revision : Option (List Char)
  modified : Bool
  unknown : Bool
  deriving DecidableEq, Repr

/-- Modelled from the spec: `init_result` of common.c, the record with every
field absent or false. -/
def init_result : result_t :=
  { branch := none, revision := none, modified := false, unknown := false }

/-- Modelled from the spec: `result_set_branch` of common.c stores a copy of
the string as the branch and reports success (allocation does not fail). -/
def result_set_branch (result : result_t) (branch : List Char) : Bool × result_t :=
  (true, { result with branch := some branch })

/-- Modelled from the spec: `result_set_revision` of common.c stores the first
`len` characters of the string as the revision, the whole string when `len`
is `-1`. -/
def result_set_revision (result : result_t) (revision : List Char) (len : Int) : result_t :=
  if len = -1 then { result with revision := some revision }
  else { result with revision := some (revision.take len.toNat) }

/-! ## svn.c -/

/-- What the sqlite3 calls of `svn_read_sqlite` report for `.svn/wc.db`. -/
structure WcDb where
  /-- `sqlite3_open` returned `SQLITE_OK`. -/
  open_ok : Bool
  /-- First query: `none` when `sqlite3_prepare_v2` fails, else the text of
  column 0 (`some none`: NULL). -/
  changed_revision : Option (Option (List Char))
  /-- Second query, likewise. -/
  repos_path : Option (Option (List Char))

/-- `svn_read_sqlite` (svn.c 63-118); `have_sqlite` is `HAVE_SQLITE3_H` of the
missing config.h.  Returns `ok` and the record. -/
def svn_read_sqlite (have_sqlite : Bool) (db : WcDb) (result : result_t) :
    Outcome (Bool × result_t) :=
  if !have_sqlite then .ret (false, result)
  else if !db.open_ok then .ret (false, result)
  else
    match db.changed_revision with
    | none => .ret (false, result)
    | some none => .fault                       -- sprintf("%s", NULL)
    | some (some rev) =>
      if 1024 ≤ rev.length then .fault          -- sprintf past the 1024 bytes of buf
      else
        let result := { result with revision := some rev }
        match db.repos_path with
        | none => .ret (false, result)
        | some none => .fault                   -- strcmp(NULL, "trunk")
        | some (some repos_path) =>
          .ret (true, { result with branch := get_branch_name repos_path })

/-- The loop `while (line_num <= limit) { if (fgets(line, size, fp) == NULL)
return 0; line_num++; }` of `svn_read_custom`; `none` is the `return 0`.
The first argument bounds the iterations; `limit + 1 - line_num` is enough. -/
def read_while (limit size : Nat) :
    Nat → Nat → List Char → List Char → Option (Nat × List Char × List Char)
  | 0, line_num, fp, line => some (line_num, fp, line)
  | fuel + 1, line_num, fp, line =>
    if line_num ≤ limit then
      match fgets size fp with
      | none => none
      | some (l, fp1) => read_while limit size fuel (line_num + 1) fp1 l
    else some (line_num, fp, line)

/-- `svn_read_custom` (svn.c 120-171).  Returns `ok` and the record. -/
def svn_read_custom (fp : List Char) (line : List Char) (size line_num : Nat)
    (result : result_t) : Outcome (Bool × result_t) :=
  match read_while 5 size (5 + 1 - line_num) line_num fp line with
  | none => .ret (false, result)
  | some (line_num, fp, line) =>
    let repos_path := chop_newline_obj (strdup_obj line)
    match fgets size fp with
    | none => .ret (false, result)
    | some (line, fp) =>
      let line_num := line_num + 1
      let repos_root := chop_newline line
      let root_len := repos_root.length
      if !strncmp_eq (cstr repos_path) repos_root root_len then .ret (false, result)
      else
        match obj_str repos_path (root_len + 1) with
        | none => .fault                        -- read outside the strdup object
        | some p =>
          let result := { result with branch := get_branch_name p }
          match read_while 11 size (11 + 1 - line_num) line_num fp line with
          | none => .ret (false, result)
          | some (_, _, line) =>
            .ret (true, { result with revision := some (chop_newline line) })

/-- `strstr(s, m)` as the offset of the first occurrence of `m` in `s`;
`none` is NULL. -/
def strstr : List Char → List Char → Option Nat
  | [], m => if m = [] then some 0 else none
  | c :: cs, m => if m.isPrefixOf (c :: cs) then some 0 else (strstr cs m).map (· + 1)

/-- `isspace` in the C locale. -/
def isspace (c : Char) : Bool := c.toNat = 32 || (9 ≤ c.toNat && c.toNat ≤ 13)

/-- `isdigit`. -/
def isdigit (c : Char) : Bool := 48 ≤ c.toNat && c.toNat ≤ 57

/-- The double quote character. -/
def DQUOTE : Char := Char.ofNat 34

/-- The call `sscanf(p, " %*[^\"]\"%[0-9]\"", rev)` with `char rev[100]`
(svn.c 188): `some digits` when it returns 1 and leaves `digits` in `rev`,
`none` when it returns anything else, `fault` when the digits do not fit
`rev`. -/
def sscanf_rev (p : List Char) : Outcome (Option (List Char)) :=
  let s := p.dropWhile isspace                  -- " "
  let skipped := s.takeWhile (fun c => c != DQUOTE)   -- %*[^\"]
  if skipped = [] then .ret none
  else
    match s.dropWhile (fun c => c != DQUOTE) with
    | [] => .ret none                           -- input ends before \"
    | _ :: s =>
      let digits := s.takeWhile isdigit         -- %[0-9]
      if digits = [] then .ret none
      else if 100 ≤ digits.length then .fault
      else .ret (some digits)

/-- The loop `while (fgets(line, size, fp)) { if ((p = strstr(line, marker))
!= NULL) break; }` of `svn_read_xml`: the string at `p`, `none` when `p` stays
NULL.  The first argument bounds the iterations; one more than the bytes
left in the stream is enough. -/
def xml_scan (size : Nat) (marker : List Char) : Nat → List Char → Option (List Char)
  | 0, _ => none
  | fuel + 1, fp =>
    match fgets size fp with
    | none => none
    | some (line, fp1) =>
      match strstr line marker with
      | some k => some (line.drop k)
      | none => xml_scan size marker fuel fp1

/-- `svn_read_xml` (svn.c 173-193).  Returns `ok` and the record. -/
def svn_read_xml (fp : List Char) (_line : List Char) (size _line_num : Nat)
    (result : result_t) : Outcome (Bool × result_t) :=
  let marker := "revision=".toList
  match xml_scan size marker (fp.length + 1) fp with
  | none => .ret (false, result)
  | some p =>
    match sscanf_rev p with
    | .fault => .fault
    | .ret (some rev) => .ret (true, result_set_revision result rev (-1))
    | .ret none => .ret (true, result)

/-- What `svn_get_info` finds on disk in the current directory. -/
structure SvnWc where
  /-- Content of `.svn/entries`; `none` when `fopen` fails. -/
  entries : Option (List Char)
  /-- The file `.svn/wc.db`; `none` when `access(".svn/wc.db", F_OK)` fails. -/
  wc_db : Option WcDb

/-- `svn_get_info` (svn.c 195-239); `none` is the NULL return. -/
def svn_get_info (have_sqlite : Bool) (wc : SvnWc) : Outcome (Option result_t) :=
  let result := init_result
  match wc.entries with
  | none => .ret none
  | some fp =>
    match fgets 1024 fp with
    | none => .ret none
    | some (line, fp) =>
      let line_num := 1 + 1
      let r :=
        match wc.wc_db with
        | some db => svn_read_sqlite have_sqlite db result
        | none =>
          if isdigit (line.headD NUL) then svn_read_custom fp line 1024 line_num result
          else svn_read_xml fp line 1024 line_num result
      match r with
      | .fault => .fault
      | .ret (ok, result) => if ok then .ret (some result) else .ret none

/-! ## git.c -/

/-- What a path names. -/
inductive Node where
  | file (content : List Char)
  | dir (d : Nat)

/-- Fields of `capture_t` that git.c reads (`dynbuf` of capture.h). -/
structure dynbuf where
  size : Nat
  len : Nat
  buf : List Char
  eof : Bool

/-- The record `capture_t` of capture.h, with the stream names git.c uses. -/
structure capture_t where
  childout : dynbuf
  childerr : dynbuf
  status : Int
  signal : Int

/-- The environment of the process.  Directories are numbered. -/
structure Fs where
  /-- What a path names when resolved from a directory. -/
  node : Nat → List Char → Option Node
  /-- The path `getcwd` reports for a directory; `none` when it fails. -/
  getcwd : Nat → Option (List Char)
  /-- Modelled from the spec: `capture_child(file, argv)` of capture.c, run in
  a directory; `none` is the null result (the child could not be started). -/
  capture_child : Nat → List Char → List (List Char) → Option capture_t

/-- The four display options of `options_t` that the back ends read. -/
structure options_t where
  show_branch : Bool
  show_revision : Bool
  show_modified : Bool
  show_unknown : Bool

/-- Modelled from the spec: `isfile` of common.c, true when the path names
a regular file. -/
def isfile (fs : Fs) (cwd : Nat) (path : List Char) : Bool :=
  match fs.node cwd path with
  | some (.file _) => true
  | _ => false

/-- Modelled from the spec: `isdir` of common.c, true when the path names
a directory. -/
def isdir (fs : Fs) (cwd : Nat) (path : List Char) : Bool :=
  match fs.node cwd path with
  | some (.dir _) => true
  | _ => false

/-- `git_probe` (git.c 21-25). -/
def git_probe (fs : Fs) (cwd : Nat) : Bool :=
  isdir fs cwd ".git".toList || isfile fs cwd ".git".toList

/-- `svn_probe` (svn.c 25-29). -/
def svn_probe (fs : Fs) (cwd : Nat) : Bool :=
  isdir fs cwd ".svn".toList

/-- Modelled from the spec: `read_first_line` of common.c opens the file, reads
the first line with one `fgets` into a buffer of `size` bytes and strips
the trailing newline; `none` is the failure return (no such file, or nothing
to read). -/
def read_first_line (fs : Fs) (cwd : Nat) (filename : List Char) (size : Nat) :
    Option (List Char) :=
  match fs.node cwd filename with
  | some (.file content) => (fgets size content).map (fun r => chop_newline r.1)
  | _ => none

/-- `chdir(path)`: the new working directory, `none` when it fails (the
working directory is then unchanged). -/
def chdir (fs : Fs) (cwd : Nat) (path : List Char) : Option Nat :=
  match fs.node cwd path with
  | some (.dir d) => some d
  | _ => none

/-- `strncat(dest, src, n)` on a buffer with enough room. -/
def strncat (dest src : List Char) (n : Nat) : List Char := dest ++ src.take n

/-- Lines 39-57 of `git_get_info`: change into the metadata directory.
`none` is `goto err`; the working directory is then still `cwd`. -/
def git_enter (fs : Fs) (cwd : Nat) : Option Nat :=
  match (if isfile fs cwd ".git".toList then read_first_line fs cwd ".git".toList 1024
         else none) with
  | some buf =>
    if !strncmp_eq buf "gitdir: ".toList 8 then none
    else if buf.length < 9 then none
    else chdir fs cwd (buf.drop 8)              -- relative_path = buf + 8
  | none => chdir fs cwd ".git".toList

/-- Lines 83-85 of `git_get_info`: the name of the file consulted for the
commit of a branch, built in `char filename[1024]`. -/
def git_ref_filename (branch : List Char) : List Char :=
  let filename := "refs/heads/".toList
  let nchars := 1024 - filename.length - 1
  strncat filename branch nchars

/-- Lines 64-90 of `git_get_info`: branch and revision from the first line
`buf` of HEAD, read inside the metadata directory `d`. -/
def git_head (fs : Fs) (options : options_t) (d : Nat) (buf : List Char)
    (result : result_t) : result_t :=
  let pfx := "ref: refs/heads/".toList
  let prefixlen := pfx.length
  if options.show_branch || options.show_revision then
    let r :=
      if strncmp_eq pfx buf prefixlen then
        result_set_branch result (buf.drop prefixlen)
      else
        (false, result_set_revision (result_set_branch result "(unknown)".toList).2 buf 12)
    let found_branch := r.1
    let result := r.2
    if options.show_revision && found_branch then
      -- result->branch is not NULL here: found_branch is set after it was stored
      let filename := git_ref_filename (result.branch.getD [])
      match read_first_line fs d filename 1024 with
      | some buf => result_set_revision result buf 12
      | none => result
    else result
  else result

/-- The argument vector of the diff child (git.c 96-97). -/
def argv_diff : List (List Char) :=
  ["git".toList, "diff".toList, "--no-ext-diff".toList, "--quiet".toList,
   "--exit-code".toList]

/-- The argument vector of the ls-files child (git.c 107-108). -/
def argv_ls_files : List (List Char) :=
  ["git".toList, "ls-files".toList, "--others".toList, "--exclude-standard".toList]

/-- `git_get_info` (git.c 27-121), started in directory `dir`.  Returns the
record (`none` is NULL) and the working directory of the process at return. -/
def git_get_info (fs : Fs) (options : options_t) (dir : Nat) :
    Outcome (Option result_t × Nat) :=
  let result := init_result
  match fs.getcwd dir with
  | none => .ret (none, dir)
  | some cwd =>
    match git_enter fs dir with
    | none => .ret (none, dir)
    | some d =>
      match read_first_line fs d "HEAD".toList 1024 with
      | none => .ret (none, d)                  -- goto err
      | some buf =>
        let result := git_head fs options d buf result
        -- chdir(cwd), return value not looked at
        let d := (chdir fs d cwd).getD d
        let modified : Outcome result_t :=
          if options.show_modified then
            match fs.capture_child d "git".toList argv_diff with
            | none => .fault                    -- capture->status with capture NULL
            | some capture => .ret { result with modified := capture.status == 1 }
          else .ret result
        match modified with
        | .fault => .fault
        | .ret result =>
          let result :=
            if options.show_unknown then
              match fs.capture_child d "git".toList argv_ls_files with
              | none => { result with unknown := false }
              | some capture => { result with unknown := decide (capture.childout.len > 0) }
            else result
          .ret (some result, d)

/-! ## Line-level description of `svn_read_custom` -/

/-- A line that one `fgets` call into a 1024-byte buffer reads whole, newline
included, and that holds no NUL byte. -/
def TextLine (l : List Char) : Prop := l.length + 1 < 1024 ∧ NUL ∉ l

/-- What `svn_read_custom` computes, stated on the lines that follow line 1 of
the entries file (`ls[3]` is line 5, `ls[4]` line 6, `ls[9]` line 11): `ok` and
the record.  `svn_read_custom_lines` proves the agreement for text lines. -/
def custom_lines (ls : List (List Char)) (result : result_t) : Bool × result_t :=
  match ls[3]?, ls[4]? with
  | some l5, some l6 =>
    if l6 <+: l5 then
      match ls[9]? with
      | some l11 =>
        (true, { result with branch := get_branch_name (l5.drop (l6.length + 1)),
                             revision := some l11 })
      | none => (false, { result with branch := get_branch_name (l5.drop (l6.length + 1)) })
    else (false, result)
  | _, _ => (false, result)

/-! ## Example inputs -/

/-- A git working tree in directory 0, known as `/repo`: `.git` is
directory 1, HEAD names the branch `main`, and `refs/heads/main` holds its
commit. -/
def fs_on_branch : Fs where
  node := fun d p =>
    if p = "/repo".toList then some (.dir 0)
    else if d = 0 ∧ p = ".git".toList then some (.dir 1)
    else if d = 1 ∧ p = "HEAD".toList then some (.file "ref: refs/heads/main\n".toList)
    else if d = 1 ∧ p = "refs/heads/main".toList then
      some (.file "deadbeef00112233\n".toList)
    else none
  getcwd := fun d => if d = 0 then some "/repo".toList else some "/repo/.git".toList
  capture_child := fun _ _ _ => none

/-- A git working tree in directory 0, known as `/repo`, with a detached
HEAD. -/
def fs_detached : Fs where
  node := fun d p =>
    if p = "/repo".toList then some (.dir 0)
    else if d = 0 ∧ p = ".git".toList then some (.dir 1)
    else if d = 1 ∧ p = "HEAD".toList then some (.file "abcdef0123456789\n".toList)
    else none
  getcwd := fun d => if d = 0 then some "/repo".toList else some "/repo/.git".toList
  capture_child := fun _ _ _ => none

/-- Directory 0, known as `/repo`, holds a directory `.git` (directory 1)
without a HEAD file. -/
def fs_no_head : Fs where
  node := fun d p =>
    if p = "/repo".toList then some (.dir 0)
    else if d = 0 ∧ p = ".git".toList then some (.dir 1)
    else none
  getcwd := fun d => if d = 0 then some "/repo".toList else some "/repo/.git".toList
  capture_child := fun _ _ _ => none

/-- The text whose lines are the given strings, each followed by a newline. -/
def text_of_lines (ls : List String) : List Char :=
  (ls.map (fun l => l.toList ++ [NL])).flatten

/-- An entries file in the custom format: checkout of
`http://h/repo/trunk/doc`, revision 1234. -/
def entries_trunk : List Char :=
  text_of_lines ["10", "", "dir", "1234", "http://h/repo/trunk/doc", "http://h/repo", "", "",
    "", "", "1234", ""]

/-- An entries file in the custom format for a checkout of the repository root:
line 5 and line 6 are both `http://h/repo`. -/
def entries_root : List Char :=
  text_of_lines ["10", "", "dir", "1234", "http://h/repo", "http://h/repo", "", "", "", "",
    "1234", ""]

/-- An entries file in the custom format whose line 6 is no prefix of
line 5. -/
def entries_foreign_root : List Char :=
  text_of_lines ["10", "", "dir", "1234", "http://h/repo/trunk", "http://other/repo", "", "",
    "", "", "1234", ""]

/-- An entries file in the custom format that stops after line 10. -/
def entries_ten : List Char :=
  text_of_lines ["10", "", "dir", "1234", "http://h/repo/trunk/doc", "http://h/repo", "", "",
    "", ""]

/-- The git working tree of `fs_on_branch` with two children that can be
started: the diff child exits with status 1, the ls-files child prints one
file name of 6 bytes. -/
def fs_untracked : Fs where
  node := fs_on_branch.node
  getcwd := fs_on_branch.getcwd
  capture_child := fun _ _ argv =>
    if argv = argv_ls_files then
      some { childout := ⟨4096, 6, "a.txt\n".toList, true⟩, childerr := ⟨4096, 0, [], true⟩,
             status := 0, signal := 0 }
    else
      some { childout := ⟨4096, 0, [], true⟩, childerr := ⟨4096, 0, [], true⟩,
             status := 1, signal := 0 }

/-- A submodule in directory 0, known as `/repo/sub`: `.git` is a regular file
that points to directory 2, where HEAD names the branch `main`. -/
def fs_submodule : Fs where
  node := fun d p =>
    if p = "/repo/sub".toList then some (.dir 0)
    else if d = 0 ∧ p = ".git".toList then
      some (.file "gitdir: ../.git/modules/sub\n".toList)
    else if d = 0 ∧ p = "../.git/modules/sub".toList then some (.dir 2)
    else if d = 2 ∧ p = "HEAD".toList then some (.file "ref: refs/heads/main\n".toList)
    else none
  getcwd := fun d => if d = 0 then some "/repo/sub".toList else some "/repo/.git/modules/sub".toList
  capture_child := fun _ _ _ => none

/-- The text whose lines are the given strings, each followed by a newline. -/
def text_of_char_lines (ls : List (List Char)) : List Char :=
  (ls.map (fun l => l ++ [NL])).flatten

/-- The string between double quotes. -/
def quoted (s : String) : List Char := DQUOTE :: s.toList ++ [DQUOTE]

/-- An entries file in the XML-ish format at revision 123, last changed in
revision 120. -/
def entries_xml : List Char :=
  text_of_char_lines
    ["<?xml version=".toList ++ quoted "1.0" ++ "?>".toList,
     "<wc-entries>".toList,
     "<entry".toList,
     "   committed-rev=".toList ++ quoted "120",
     "   name=".toList ++ quoted "",
     "   revision=".toList ++ quoted "123",
     "   kind=".toList ++ quoted "dir" ++ "/>".toList,
     "</wc-entries>".toList]

/-- An entries file in the XML-ish format without any `revision=`. -/
def entries_xml_no_marker : List Char :=
  text_of_char_lines
    ["<?xml version=".toList ++ quoted "1.0" ++ "?>".toList,
     "<wc-entries>".toList,
     "<entry name=".toList ++ quoted "" ++ "/>".toList,
     "</wc-entries>".toList]

/-- An entries file in the XML-ish format whose only `revision=` stands on the
first line. -/
def entries_xml_first_line : List Char :=
  text_of_char_lines
    ["<entry revision=".toList ++ quoted "123" ++ ">".toList,
     "</entry>".toList]

/-- An entries file in the XML-ish format whose first `revision=` is followed
by a quoted word that is no number; a later one is well formed. -/
def entries_xml_no_digits : List Char :=
  text_of_char_lines
    ["<?xml version=".toList ++ quoted "1.0" ++ "?>".toList,
     "<entry".toList,
     "   revision=".toList ++ quoted "HEAD",
     "   revision=".toList ++ quoted "123" ++ "/>".toList]

/-- An entries file in the custom format whose checkout URL continues the root
URL with `X` in place of a slash. -/
def entries_glued : List Char :=
  text_of_lines ["10", "", "dir", "1234", "http://h/repoXtrunk", "http://h/repo", "", "",
    "", "", "1234", ""]

/-- An entries file in the custom format whose checkout URL lies in another
repository, the name of which starts with the root URL. -/
def entries_sibling : List Char :=
  text_of_lines ["10", "", "dir", "1234", "http://h/repo2/trunk", "http://h/repo", "", "",
    "", "", "1234", ""]

/-- An entries file in the custom format that lacks one of the lines 7 to 10,
so that the commit date stands on line 11. -/
def entries_date : List Char :=
  text_of_lines ["10", "", "dir", "1234", "http://h/repo/trunk", "http://h/repo", "", "",
    "", "1234", "2009-05-01T12:00:00.000000Z", "jrandom"]

/-- An entries file in the XML-ish format whose revision is a run of 100
digits. -/
def entries_xml_long_number : List Char :=
  text_of_char_lines
    ["<?xml version=".toList ++ quoted "1.0" ++ "?>".toList,
     "<entry".toList,
     "   revision=".toList ++ DQUOTE :: List.replicate 100 '1' ++ [DQUOTE]]

/-- An entries file in the custom format of 10 lines whose line 2 has 1100
characters: `fgets` takes it in two parts, so that 11 reads succeed. -/
def entries_ten_long : List Char :=
  text_of_char_lines
    ["10".toList, List.replicate 1100 'x', "dir".toList, "http://h/repo/trunk".toList,
     "http://h/repo".toList, [], [], [], [], "1234".toList]

/-- A root URL of 1109 characters. -/
def long_root : List Char := "http://h/".toList ++ List.replicate 1100 'a'

/-- An entries file in the custom format of 12 lines whose root URL (line 6)
is `long_root` and whose checkout URL (line 5) is `long_root`, followed by
`sep` and "trunk". -/
def entries_long_root (sep : Char) : List Char :=
  text_of_char_lines
    ["10".toList, [], "dir".toList, "1234".toList, long_root ++ sep :: "trunk".toList,
     long_root, [], [], [], [], "1234".toList, []]

/-- An entries file in the custom format of 10 lines whose line 5 has 1024
characters, the last of them equal to the first; line 6 is "zzz". -/
def entries_long_url : List Char :=
  text_of_char_lines
    ["10".toList, [], "dir".toList, "1234".toList,
     'h' :: List.replicate 1022 'a' ++ ['h'], "zzz".toList, [], [], [], "1234".toList]

/-- An entries file in the custom format whose line 6 holds a NUL byte after
"http://h/repo". -/
def entries_nul_root : List Char :=
  text_of_char_lines
    ["10".toList, [], "dir".toList, "1234".toList, "http://h/repo/trunk".toList,
     "http://h/repo".toList ++ NUL :: "junk".toList, [], [], [], [], "1234".toList, []]

/-- An entries file in the XML-ish format whose line 2 is 1018 blanks followed
by `revision=` and the quoted word `w`: the marker lies across the end of the
1023 bytes one `fgets` call takes. -/
def entries_xml_long_line (w : String) : List Char :=
  text_of_char_lines
    ["<?xml version=".toList ++ quoted "1.0" ++ "?>".toList,
     List.replicate 1018 ' ' ++ "revision=".toList ++ quoted w,
     "</wc-entries>".toList]

/-- An entries file in the XML-ish format whose line 2 is a NUL byte followed
by `revision=` and the quoted word `w`. -/
def entries_xml_nul (w : String) : List Char :=
  text_of_char_lines
    ["<?xml version=".toList ++ quoted "1.0" ++ "?>".toList,
     NUL :: "revision=".toList ++ quoted w,
     "</wc-entries>".toList]

/-- An entries file in the custom format of 12 lines whose root URL (line 6)
holds a NUL byte and is a prefix of the checkout URL (line 5). -/
def entries_nul_in_root : List Char :=
  text_of_char_lines
    ["10".toList, [], "dir".toList, "1234".toList,
     "http://h/re".toList ++ NUL :: "po/trunk".toList,
     "http://h/re".toList ++ NUL :: "po".toList, [], [], [], [], "1234".toList, []]

/-- An entries file in the custom format of 12 lines whose root URL (line 6)
is "http://h/repo" and whose checkout URL (line 5) is the root URL followed by
`sep` and "trunk". -/
def entries_sep (sep : Char) : List Char :=
  text_of_char_lines
    ["10".toList, [], "dir".toList, "1234".toList, "http://h/repo".toList ++ sep :: "trunk".toList,
     "http://h/repo".toList, [], [], [], [], "1234".toList, []]

/-! ## `get_branch_name` -/

/-- `strncmp` over the length of the second string tests for a prefix. -/
theorem strncmp_eq_iff (a m : List Char) :
    strncmp_eq a m m.length = true ↔ m <+: a := by
  unfold strncmp_eq
  rw [List.take_length, beq_iff_eq, List.prefix_iff_eq_take]
  exact eq_comm

/-- C1: on "branches/foo/bar" the code returns "foo/bar", slash included: the
length handed to `strndup` is `slash2 - repos_path + 9`, not the length of the
segment. -/
theorem get_branch_name_nested_branch :
    get_branch_name "branches/foo/bar".toList = some "foo/bar".toList := by
  decide

/-- C2: for a path that does not start with "branches/", `get_branch_name`
returns "trunk" when the path is "trunk" or starts with "trunk/", and NULL
otherwise. -/
theorem get_branch_name_not_branches (p : List Char)
    (h : ¬ "branches/".toList <+: p) :
    get_branch_name p =
      if p = "trunk".toList ∨ "trunk/".toList <+: p then some "trunk".toList else none := by
  have h6 : strncmp_eq p "trunk/".toList 6 = true ↔ "trunk/".toList <+: p :=
    strncmp_eq_iff p "trunk/".toList
  have h9 : strncmp_eq p "branches/".toList 9 = true ↔ "branches/".toList <+: p :=
    strncmp_eq_iff p "branches/".toList
  unfold get_branch_name
  by_cases h1 : p = "trunk".toList
  · rw [if_pos (by simpa [strcmp_eq] using h1), if_pos (Or.inl h1), h1]
  · rw [if_neg (by simpa [strcmp_eq] using h1)]
    by_cases h2 : "trunk/".toList <+: p
    · rw [if_pos (h6.mpr h2), if_pos (Or.inr h2)]
      obtain ⟨t, rfl⟩ := h2
      rfl
    · rw [if_neg (fun e => h2 (h6.mp e)), if_neg (fun e => h (h9.mp e)),
        if_neg (fun (e : p = "trunk".toList ∨ "trunk/".toList <+: p) => e.elim h1 h2)]
      split <;> rfl

/-- C2 at the path "trunk/x/y". -/
theorem get_branch_name_not_branches_witness :
    ¬ "branches/".toList <+: "trunk/x/y".toList ∧
    get_branch_name "trunk/x/y".toList =
      if "trunk/x/y".toList = "trunk".toList ∨ "trunk/".toList <+: "trunk/x/y".toList
      then some "trunk".toList else none :=
  ⟨by decide, get_branch_name_not_branches "trunk/x/y".toList (by decide)⟩

/-! ## Reading lines: `fgets`, `chop_newline`, `read_first_line` -/

/-- The newline is not the NUL byte. -/
theorem NL_ne_NUL : NL ≠ NUL := by decide

/-- The C string of a buffer ends at its first NUL. -/
theorem cstr_append_nul (l t : List Char) (h : NUL ∉ l) : cstr (l ++ NUL :: t) = l := by
  induction l with
  | nil => simp [cstr]
  | cons c cs ih =>
    have hc : c ≠ NUL := fun e => h (e ▸ List.mem_cons_self _ _)
    have hcs : NUL ∉ cs := fun m => h (List.mem_cons_of_mem _ m)
    have := ih hcs
    simp only [cstr] at this ⊢
    simp [List.takeWhile_cons, hc, this]

/-- Bytes without NUL are their own C string. -/
theorem cstr_of_no_nul (l : List Char) (h : NUL ∉ l) : cstr l = l := by
  induction l with
  | nil => rfl
  | cons c cs ih =>
    have hc : c ≠ NUL := fun e => h (e ▸ List.mem_cons_self _ _)
    have hcs : NUL ∉ cs := fun m => h (List.mem_cons_of_mem _ m)
    have := ih hcs
    simp only [cstr] at this ⊢
    simp [List.takeWhile_cons, hc, this]

/-- Only the empty file has no line. -/
theorem fileLines_eq_nil (s : List Char) (h : fileLines s = []) : s = [] := by
  cases s with
  | nil => rfl
  | cons c cs =>
    simp only [fileLines] at h
    split at h
    · simp at h
    · split at h <;> simp at h

/-- A file with first line `l` is `l` itself (no newline at the end) or `l`, a
newline, and the text of the other lines. -/
theorem fileLines_cons (s l : List Char) (ls : List (List Char)) (h : fileLines s = l :: ls) :
    NL ∉ l ∧ ((s = l ∧ l ≠ [] ∧ ls = []) ∨ ∃ rest, s = l ++ NL :: rest ∧ fileLines rest = ls) := by
  induction s generalizing l ls with
  | nil => simp [fileLines] at h
  | cons c cs ih =>
    simp only [fileLines] at h
    by_cases hc : c = NL
    · rw [if_pos hc] at h
      simp only [List.cons.injEq] at h
      obtain ⟨rfl, rfl⟩ := h
      exact ⟨by simp, Or.inr ⟨cs, by simp [hc], rfl⟩⟩
    · rw [if_neg hc] at h
      cases hcs : fileLines cs with
      | nil =>
        rw [hcs] at h
        simp only [List.cons.injEq] at h
        obtain ⟨rfl, rfl⟩ := h
        have := fileLines_eq_nil cs hcs
        subst this
        exact ⟨by simpa using Ne.symm hc, Or.inl ⟨rfl, by simp, rfl⟩⟩
      | cons l1 ls1 =>
        rw [hcs] at h
        simp only [List.cons.injEq] at h
        obtain ⟨rfl, rfl⟩ := h
        obtain ⟨hn, hs⟩ := ih l1 ls1 hcs
        refine ⟨?_, ?_⟩
        · simp only [List.mem_cons, not_or]
          exact ⟨Ne.symm hc, hn⟩
        · rcases hs with ⟨rfl, _, rfl⟩ | ⟨rest, rfl, hr⟩
          · exact Or.inl ⟨rfl, by simp, rfl⟩
          · exact Or.inr ⟨rest, by simp, hr⟩

/-- A line that fits is read up to and including its newline. -/
theorem read_chunk_line (n : Nat) (l rest : List Char) (hnl : NL ∉ l) (hlen : l.length < n) :
    read_chunk n (l ++ NL :: rest) = (l ++ [NL], rest) := by
  induction l generalizing n with
  | nil =>
    cases n with
    | zero => simp at hlen
    | succ n => simp [read_chunk]
  | cons c cs ih =>
    cases n with
    | zero => simp at hlen
    | succ n =>
      have hc : c ≠ NL := fun e => hnl (e ▸ List.mem_cons_self _ _)
      have hcs : NL ∉ cs := fun m => hnl (List.mem_cons_of_mem _ m)
      have := ih n hcs (by simpa using hlen)
      simp [read_chunk, hc, this]

/-- Of a line that does not fit, as many bytes are read as the buffer takes. -/
theorem read_chunk_take (n : Nat) (l t : List Char) (hnl : NL ∉ l) (hlen : n ≤ l.length) :
    (read_chunk n (l ++ t)).1 = l.take n := by
  induction l generalizing n with
  | nil =>
    have : n = 0 := by simpa using hlen
    subst this
    simp [read_chunk]
  | cons c cs ih =>
    cases n with
    | zero => simp [read_chunk]
    | succ n =>
      have hc : c ≠ NL := fun e => hnl (e ▸ List.mem_cons_self _ _)
      have hcs : NL ∉ cs := fun m => hnl (List.mem_cons_of_mem _ m)
      have := ih n hcs (by simpa using hlen)
      simp [read_chunk, hc, this]

/-- A last line without newline that fits is read whole. -/
theorem read_chunk_eof (n : Nat) (l : List Char) (hnl : NL ∉ l) (hlen : l.length ≤ n) :
    read_chunk n l = (l, []) := by
  induction l generalizing n with
  | nil => cases n <;> simp [read_chunk]
  | cons c cs ih =>
    cases n with
    | zero => simp at hlen
    | succ n =>
      have hc : c ≠ NL := fun e => hnl (e ▸ List.mem_cons_self _ _)
      have hcs : NL ∉ cs := fun m => hnl (List.mem_cons_of_mem _ m)
      have := ih n hcs (by simpa using hlen)
      simp [read_chunk, hc, this]

/-- `chop_newline` removes the newline at the end. -/
theorem chop_newline_append_NL (l : List Char) : chop_newline (l ++ [NL]) = l := by
  simp [chop_newline]

/-- `chop_newline` leaves a string without newline as it is. -/
theorem chop_newline_of_no_NL (l : List Char) (h : NL ∉ l) : chop_newline l = l := by
  unfold chop_newline
  rw [if_neg]
  intro e
  exact h (List.mem_of_getLast?_eq_some e)

/-- One `fgets` into 1024 bytes followed by `chop_newline` yields the first 1023
characters of the first line. -/
theorem fgets_chop (s l : List Char) (ls : List (List Char)) (h : fileLines s = l :: ls)
    (hnul : NUL ∉ l) :
    (fgets 1024 s).map (fun r => chop_newline r.1) = some (l.take 1023) := by
  obtain ⟨hnl, hs⟩ := fileLines_cons s l ls h
  have hs0 : s ≠ [] := by
    rintro rfl
    simp [fileLines] at h
  have hfg : fgets 1024 s = some (cstr (read_chunk 1023 s).1, (read_chunk 1023 s).2) := by
    cases s with
    | nil => exact absurd rfl hs0
    | cons c cs => rfl
  rw [hfg]
  simp only [Option.map_some', Option.some.injEq]
  have htake_nul : NUL ∉ l.take 1023 := fun m => hnul (List.mem_of_mem_take m)
  have htake_nl : NL ∉ l.take 1023 := fun m => hnl (List.mem_of_mem_take m)
  by_cases hlen : l.length < 1023
  · rcases hs with ⟨rfl, _, _⟩ | ⟨rest, rfl, _⟩
    · rw [read_chunk_eof 1023 s hnl (Nat.le_of_lt hlen), cstr_of_no_nul s hnul,
        chop_newline_of_no_NL s hnl, List.take_of_length_le (Nat.le_of_lt hlen)]
    · rw [read_chunk_line 1023 l rest hnl hlen]
      have : NUL ∉ l ++ [NL] := by
        simp only [List.mem_append, List.mem_singleton, not_or]
        exact ⟨hnul, Ne.symm NL_ne_NUL⟩
      rw [cstr_of_no_nul _ this, chop_newline_append_NL,
        List.take_of_length_le (Nat.le_of_lt hlen)]
  · have hle : 1023 ≤ l.length := Nat.le_of_not_lt hlen
    have hchunk : (read_chunk 1023 s).1 = l.take 1023 := by
      rcases hs with ⟨rfl, _, _⟩ | ⟨rest, rfl, _⟩
      · have := read_chunk_take 1023 s [] hnl hle
        simpa using this
      · exact read_chunk_take 1023 l (NL :: rest) hnl hle
    rw [hchunk, cstr_of_no_nul _ htake_nul, chop_newline_of_no_NL _ htake_nl]

/-- `read_first_line` with a 1024-byte buffer yields the first 1023 characters
of the first line of the file. -/
theorem read_first_line_head (fs : Fs) (d : Nat) (name s l : List Char)
    (hnode : fs.node d name = some (.file s))
    (hline : (fileLines s).head? = some l) (hnul : NUL ∉ l) :
    read_first_line fs d name 1024 = some (l.take 1023) := by
  unfold read_first_line
  rw [hnode]
  cases hls : fileLines s with
  | nil => rw [hls] at hline; simp at hline
  | cons l1 ls =>
    rw [hls] at hline
    simp only [List.head?_cons, Option.some.injEq] at hline
    subst hline
    exact fgets_chop s l1 ls hls hnul

/-! ## `git_get_info` -/

/-- Once HEAD has been read, `git_get_info` returns a record unless the diff
child was asked for and could not be started; branch and revision are those
computed from HEAD. -/
theorem git_get_info_of_head (fs : Fs) (options : options_t) (dir d : Nat)
    (cwd buf : List Char)
    (hcwd : fs.getcwd dir = some cwd)
    (henter : git_enter fs dir = some d)
    (hread : read_first_line fs d "HEAD".toList 1024 = some buf)
    (hlaunch : options.show_modified = true →
      fs.capture_child ((chdir fs d cwd).getD d) "git".toList argv_diff ≠ none) :
    ∃ r, git_get_info fs options dir = .ret (some r, (chdir fs d cwd).getD d) ∧
      r.branch = (git_head fs options d buf init_result).branch ∧
      r.revision = (git_head fs options d buf init_result).revision := by
  unfold git_get_info
  simp only [hcwd, henter, hread]
  cases hm : options.show_modified with
  | false =>
    simp only [Bool.false_eq_true, if_false]
    split <;> [split; skip] <;> exact ⟨_, rfl, rfl, rfl⟩
  | true =>
    cases hc : fs.capture_child ((chdir fs d cwd).getD d) "git".toList argv_diff with
    | none => exact absurd hc (hlaunch hm)
    | some capture =>
      simp only [if_true]
      split <;> [split; skip] <;> exact ⟨_, rfl, rfl, rfl⟩

/-- The literal "ref: refs/heads/" holds no NUL. -/
theorem head_pfx_no_nul : NUL ∉ "ref: refs/heads/".toList := by decide

/-- Lines 64-90 on a HEAD line that names a branch: the branch is what follows
the prefix, and with show-revision a readable ref file gives the revision. -/
theorem git_head_on_branch (fs : Fs) (options : options_t) (d : Nat) (name : List Char)
    (hshow : options.show_branch = true ∨ options.show_revision = true) :
    (git_head fs options d ("ref: refs/heads/".toList ++ name) init_result).branch = some name ∧
    ∀ buf2, options.show_revision = true →
      read_first_line fs d (git_ref_filename name) 1024 = some buf2 →
      (git_head fs options d ("ref: refs/heads/".toList ++ name) init_result).revision
        = some (buf2.take 12) := by
  have hcmp : strncmp_eq "ref: refs/heads/".toList ("ref: refs/heads/".toList ++ name)
      "ref: refs/heads/".toList.length = true := by
    unfold strncmp_eq
    rw [List.take_length, List.take_left, beq_self_eq_true]
  have hdrop : ("ref: refs/heads/".toList ++ name).drop "ref: refs/heads/".toList.length = name :=
    List.drop_left _ _
  have hor : (options.show_branch || options.show_revision) = true := by
    rcases hshow with h | h <;> simp [h]
  unfold git_head
  simp only [hor, hcmp, hdrop, if_true, result_set_branch, Bool.and_true, Option.getD_some]
  constructor
  · split
    · split <;> rfl
    · rfl
  · intro buf2 hrev hread
    rw [if_pos hrev, hread]
    rfl

/-- Lines 64-90 on a HEAD line without the prefix. -/
theorem git_head_detached (fs : Fs) (options : options_t) (d : Nat) (buf : List Char)
    (hshow : options.show_branch = true ∨ options.show_revision = true)
    (hpfx : ¬ "ref: refs/heads/".toList <+: buf) :
    git_head fs options d buf init_result =
      { init_result with branch := some "(unknown)".toList, revision := some (buf.take 12) } := by
  have hcmp : strncmp_eq "ref: refs/heads/".toList buf "ref: refs/heads/".toList.length = false := by
    rw [← Bool.not_eq_true]
    intro e
    apply hpfx
    unfold strncmp_eq at e
    rw [List.take_length, beq_iff_eq] at e
    rw [List.prefix_iff_eq_take]
    exact e
  have hor : (options.show_branch || options.show_revision) = true := by
    rcases hshow with h | h <;> simp [h]
  unfold git_head
  simp only [hor, hcmp, if_true, Bool.and_false, Bool.false_eq_true, if_false]
  rfl

/-- C3: when HEAD's first line is "ref: refs/heads/" followed by `name` and
fits the 1024-byte buffer, and show-branch or show-revision is set,
`git_get_info` returns a record whose branch is `name` (whenever it returns
a record at all: the working directory is known, the metadata directory was
entered, and a requested diff child could be started). -/
theorem git_branch_from_head (fs : Fs) (options : options_t) (dir d : Nat)
    (cwd content name : List Char)
    (hcwd : fs.getcwd dir = some cwd)
    (henter : git_enter fs dir = some d)
    (hhead : fs.node d "HEAD".toList = some (.file content))
    (hline : (fileLines content).head? = some ("ref: refs/heads/".toList ++ name))
    (hnul : NUL ∉ name)
    (hfit : ("ref: refs/heads/".toList ++ name).length < 1024)
    (hshow : options.show_branch = true ∨ options.show_revision = true)
    (hlaunch : options.show_modified = true →
      fs.capture_child ((chdir fs d cwd).getD d) "git".toList argv_diff ≠ none) :
    ∃ r dir1, git_get_info fs options dir = .ret (some r, dir1) ∧ r.branch = some name := by
  have hnul1 : NUL ∉ "ref: refs/heads/".toList ++ name := by
    rw [List.mem_append, not_or]
    exact ⟨head_pfx_no_nul, hnul⟩
  have hread := read_first_line_head fs d "HEAD".toList content _ hhead hline hnul1
  rw [List.take_of_length_le (Nat.le_of_lt_succ hfit)] at hread
  obtain ⟨r, hr, hb, _⟩ := git_get_info_of_head fs options dir d cwd _ hcwd henter hread hlaunch
  exact ⟨r, _, hr, hb.trans (git_head_on_branch fs options d name hshow).1⟩

/-- C3 on HEAD "ref: refs/heads/main". -/
theorem git_branch_from_head_witness :
    ∃ r dir1, git_get_info fs_on_branch ⟨true, false, false, false⟩ 0 = .ret (some r, dir1) ∧
      r.branch = some "main".toList :=
  git_branch_from_head fs_on_branch ⟨true, false, false, false⟩ 0 1 "/repo".toList
    "ref: refs/heads/main\n".toList "main".toList (by rfl) (by decide) (by rfl) (by decide)
    (by decide) (by decide) (Or.inl rfl) (fun h => absurd h (by decide))

/-- C4: when HEAD's first line does not start with "ref: refs/heads/" and
show-branch or show-revision is set, `git_get_info` returns a record whose
branch is "(unknown)" and whose revision is the first 12 characters of that
line. -/
theorem git_detached_head (fs : Fs) (options : options_t) (dir d : Nat)
    (cwd content line : List Char)
    (hcwd : fs.getcwd dir = some cwd)
    (henter : git_enter fs dir = some d)
    (hhead : fs.node d "HEAD".toList = some (.file content))
    (hline : (fileLines content).head? = some line)
    (hnul : NUL ∉ line)
    (hpfx : ¬ "ref: refs/heads/".toList <+: line)
    (hshow : options.show_branch = true ∨ options.show_revision = true)
    (hlaunch : options.show_modified = true →
      fs.capture_child ((chdir fs d cwd).getD d) "git".toList argv_diff ≠ none) :
    ∃ r dir1, git_get_info fs options dir = .ret (some r, dir1) ∧
      r.branch = some "(unknown)".toList ∧ r.revision = some (line.take 12) := by
  have hread := read_first_line_head fs d "HEAD".toList content _ hhead hline hnul
  obtain ⟨r, hr, hb, hv⟩ :=
    git_get_info_of_head fs options dir d cwd _ hcwd henter hread hlaunch
  have hpfx1 : ¬ "ref: refs/heads/".toList <+: line.take 1023 :=
    fun h => hpfx (h.trans (List.take_prefix _ _))
  rw [git_head_detached fs options d _ hshow hpfx1] at hb hv
  refine ⟨r, _, hr, hb, ?_⟩
  rw [hv]
  simp [List.take_take]

/-- C4 on HEAD "abcdef0123456789". -/
theorem git_detached_head_witness :
    ∃ r dir1, git_get_info fs_detached ⟨true, true, false, false⟩ 0 = .ret (some r, dir1) ∧
      r.branch = some "(unknown)".toList ∧ r.revision = some "abcdef012345".toList :=
  git_detached_head fs_detached ⟨true, true, false, false⟩ 0 1 "/repo".toList
    "abcdef0123456789\n".toList "abcdef0123456789".toList (by rfl) (by decide) (by rfl)
    (by decide) (by decide) (by decide) (Or.inl rfl) (fun h => absurd h (by decide))

/-- C5: when HEAD's first line is "ref: refs/heads/" followed by `name`,
show-revision is set and the file `refs/heads/<branch>` of the metadata
directory has a first line, where `<branch>` is the branch read from HEAD (the
at most 1007 characters of `name` the 1024-byte buffer leaves), then the file
name built by `strncat` is "refs/heads/" followed by that whole branch, and
`git_get_info` returns a record with that branch and with the first 12
characters of the file's first line as revision. -/
theorem git_revision_of_branch (fs : Fs) (options : options_t) (dir d : Nat)
    (cwd content name content2 line2 : List Char)
    (hcwd : fs.getcwd dir = some cwd)
    (henter : git_enter fs dir = some d)
    (hhead : fs.node d "HEAD".toList = some (.file content))
    (hline : (fileLines content).head? = some ("ref: refs/heads/".toList ++ name))
    (hnul : NUL ∉ name)
    (hrev : options.show_revision = true)
    (href : fs.node d ("refs/heads/".toList ++ name.take 1007) = some (.file content2))
    (hline2 : (fileLines content2).head? = some line2)
    (hnul2 : NUL ∉ line2)
    (hlaunch : options.show_modified = true →
      fs.capture_child ((chdir fs d cwd).getD d) "git".toList argv_diff ≠ none) :
    git_ref_filename (name.take 1007) = "refs/heads/".toList ++ name.take 1007 ∧
    ∃ r dir1, git_get_info fs options dir = .ret (some r, dir1) ∧
      r.branch = some (name.take 1007) ∧ r.revision = some (line2.take 12) := by
  have hfile : git_ref_filename (name.take 1007) = "refs/heads/".toList ++ name.take 1007 := by
    unfold git_ref_filename strncat
    simp only [List.append_cancel_left_eq]
    apply List.take_of_length_le
    have h1 : (name.take 1007).length ≤ 1007 := List.length_take_le _ _
    have h2 : "refs/heads/".toList.length = 11 := rfl
    omega
  refine ⟨hfile, ?_⟩
  have hnul1 : NUL ∉ "ref: refs/heads/".toList ++ name := by
    rw [List.mem_append, not_or]
    exact ⟨head_pfx_no_nul, hnul⟩
  have hread := read_first_line_head fs d "HEAD".toList content _ hhead hline hnul1
  have htake : ("ref: refs/heads/".toList ++ name).take 1023
      = "ref: refs/heads/".toList ++ name.take 1007 :=
    @List.take_append Char "ref: refs/heads/".toList name 1007
  rw [htake] at hread
  obtain ⟨r, hr, hb, hv⟩ :=
    git_get_info_of_head fs options dir d cwd _ hcwd henter hread hlaunch
  obtain ⟨hb1, hv1⟩ := git_head_on_branch fs options d (name.take 1007) (Or.inr hrev)
  have hread2 : read_first_line fs d (git_ref_filename (name.take 1007)) 1024
      = some (line2.take 1023) := by
    rw [hfile]
    exact read_first_line_head fs d _ content2 line2 href hline2 hnul2
  refine ⟨r, _, hr, hb.trans hb1, ?_⟩
  rw [hv, hv1 _ hrev hread2]
  simp [List.take_take]

/-- C5 on HEAD "ref: refs/heads/main" with refs/heads/main
"deadbeef00112233". -/
theorem git_revision_of_branch_witness :
    git_ref_filename "main".toList = "refs/heads/main".toList ∧
    ∃ r dir1, git_get_info fs_on_branch ⟨true, true, false, false⟩ 0 = .ret (some r, dir1) ∧
      r.branch = some "main".toList ∧ r.revision = some "deadbeef0011".toList :=
  git_revision_of_branch fs_on_branch ⟨true, true, false, false⟩ 0 1 "/repo".toList
    "ref: refs/heads/main\n".toList "main".toList "deadbeef00112233\n".toList
    "deadbeef00112233".toList (by rfl) (by decide) (by rfl) (by decide) (by decide) rfl
    (by rfl) (by decide) (by decide) (fun h => absurd h (by decide))

/-- C6: with show-modified set and a diff child that cannot be started
(`capture_child` returns NULL), `git_get_info` reads `capture->status` through
the NULL pointer. -/
theorem git_modified_null_capture :
    git_get_info fs_on_branch ⟨false, false, true, false⟩ 0 = .fault := by
  rfl

/-- C7: when `.git` is a directory without HEAD, `git_get_info` returns NULL
with the process still inside `.git` (directory 1), not in the directory it
was started in (directory 0). -/
theorem git_no_head_leaves_cwd :
    git_get_info fs_no_head ⟨true, true, false, false⟩ 0 = .ret (none, 1) := by
  rfl

/-! ## `svn_read_custom` and `svn_get_info` on the custom format -/

/-- On a text line `fgets` returns the line, with its newline unless the file
ends there, and leaves the text of the other lines. -/
theorem fgets_lines (s l : List Char) (ls : List (List Char)) (h : fileLines s = l :: ls)
    (ht : TextLine l) :
    ∃ raw fp1, fgets 1024 s = some (raw, fp1) ∧ fileLines fp1 = ls ∧ chop_newline raw = l ∧
      (ls ≠ [] → raw = l ++ [NL]) := by
  obtain ⟨hlen, hnul⟩ := ht
  obtain ⟨hnl, hs⟩ := fileLines_cons s l ls h
  have hfg : fgets 1024 s = some (cstr (read_chunk 1023 s).1, (read_chunk 1023 s).2) := by
    cases s with
    | nil => simp [fileLines] at h
    | cons c cs => rfl
  rcases hs with ⟨rfl, _, rfl⟩ | ⟨rest, rfl, hrest⟩
  · refine ⟨s, [], ?_, rfl, chop_newline_of_no_NL s hnl, fun h => absurd rfl h⟩
    rw [hfg, read_chunk_eof 1023 s hnl (by omega), cstr_of_no_nul s hnul]
  · refine ⟨l ++ [NL], rest, ?_, hrest, chop_newline_append_NL l, fun _ => rfl⟩
    have : NUL ∉ l ++ [NL] := by
      simp only [List.mem_append, List.mem_singleton, not_or]
      exact ⟨hnul, Ne.symm NL_ne_NUL⟩
    rw [hfg, read_chunk_line 1023 l rest hnl (by omega), cstr_of_no_nul _ this]

/-- The line-skipping loop, started `fuel + 1` lines before its limit on a
stream with that many text lines, ends holding the last of them. -/
theorem read_while_ok (limit : Nat) (fuel : Nat) :
    ∀ (n : Nat) (s line : List Char) (pre : List (List Char)) (l : List Char)
      (post : List (List Char)),
      n + fuel = limit → fileLines s = pre ++ l :: post → pre.length = fuel →
      (∀ x ∈ pre, TextLine x) → TextLine l →
      ∃ raw fp1, read_while limit 1024 (fuel + 1) n s line = some (limit + 1, fp1, raw) ∧
        fileLines fp1 = post ∧ chop_newline raw = l ∧ (post ≠ [] → raw = l ++ [NL]) := by
  induction fuel with
  | zero =>
    intro n s line pre l post hn hs hpre _ hl
    have hp : pre = [] := List.length_eq_zero.mp hpre
    subst hp
    obtain ⟨raw, fp1, hfg, hrest, hchop, hraw⟩ := fgets_lines s l post hs hl
    refine ⟨raw, fp1, ?_, hrest, hchop, hraw⟩
    have hle : n ≤ limit := by omega
    have hn1 : n + 1 = limit + 1 := by omega
    simp only [read_while, hle, if_true, hfg, hn1]
  | succ fuel ih =>
    intro n s line pre l post hn hs hpre hpre_t hl
    cases pre with
    | nil => simp at hpre
    | cons p pre1 =>
      have hp : TextLine p := hpre_t p (List.mem_cons_self _ _)
      obtain ⟨raw, fp1, hfg, hrest, _, _⟩ := fgets_lines s p (pre1 ++ l :: post) hs hp
      obtain ⟨raw2, fp2, hrw, h2⟩ := ih (n + 1) fp1 raw pre1 l post (by omega) hrest
        (by simpa using hpre) (fun x hx => hpre_t x (List.mem_cons_of_mem _ hx)) hl
      refine ⟨raw2, fp2, ?_, h2⟩
      have hle : n ≤ limit := by omega
      rw [read_while]
      simp only [hle, if_true, hfg]
      exact hrw

/-- The line-skipping loop fails on a stream with too few lines. -/
theorem read_while_eof (limit : Nat) (fuel : Nat) :
    ∀ (n : Nat) (s line : List Char), n + fuel = limit + 1 →
      (fileLines s).length < fuel → (∀ x ∈ fileLines s, TextLine x) →
      read_while limit 1024 fuel n s line = none := by
  induction fuel with
  | zero => intro n s line _ h; simp at h
  | succ fuel ih =>
    intro n s line hn hlen ht
    have hle : n ≤ limit := by omega
    rw [read_while]
    simp only [hle, if_true]
    cases hls : fileLines s with
    | nil =>
      have := fileLines_eq_nil s hls
      subst this
      rfl
    | cons l ls =>
      rw [hls] at hlen ht
      obtain ⟨raw, fp1, hfg, hrest, _, _⟩ :=
        fgets_lines s l ls hls (ht l (List.mem_cons_self _ _))
      simp only [hfg]
      apply ih (n + 1) fp1 raw (by omega)
      · rw [hrest]; simpa using hlen
      · rw [hrest]; exact fun x hx => ht x (List.mem_cons_of_mem _ hx)

/-- The object behind `repos_path` after `strdup` and `chop_newline` of a line
read with its newline: the line and two NUL bytes. -/
theorem repos_path_obj (l5 : List Char) (hnul : NUL ∉ l5) :
    chop_newline_obj (strdup_obj (l5 ++ [NL])) = l5 ++ [NUL, NUL] := by
  have h1 : strdup_obj (l5 ++ [NL]) = (l5 ++ [NL]) ++ NUL :: [] := rfl
  have hn : NUL ∉ l5 ++ [NL] := by
    simp only [List.mem_append, List.mem_singleton, not_or]
    exact ⟨hnul, Ne.symm NL_ne_NUL⟩
  unfold chop_newline_obj
  rw [h1, cstr_append_nul _ _ hn]
  simp

/-- Inside that object `repos_path + k + 1` is in bounds for every `k` up to the
length of the line, and the string there is the line without `k + 1`
characters. -/
theorem obj_str_repos_path (l5 : List Char) (k : Nat) (hnul : NUL ∉ l5) (hk : k ≤ l5.length) :
    obj_str (l5 ++ [NUL, NUL]) (k + 1) = some (l5.drop (k + 1)) := by
  unfold obj_str
  rw [if_pos (by simp; omega)]
  congr 1
  by_cases hlt : k + 1 ≤ l5.length
  · rw [List.drop_append_of_le_length hlt]
    exact cstr_append_nul _ _ (fun m => hnul (List.mem_of_mem_drop m))
  · have hk1 : k = l5.length := by omega
    subst hk1
    rw [List.drop_of_length_le (Nat.le_succ _)]
    have : l5 ++ [NUL, NUL] = (l5 ++ [NUL]) ++ [NUL] := by simp
    have hlen : (l5 ++ [NUL]).length = l5.length + 1 := by simp
    rw [this, List.drop_left' hlen]
    simp [cstr]

/-- On a stream of text lines `svn_read_custom`, entered with `line_num` 2,
never faults and computes `custom_lines`. -/
theorem svn_read_custom_lines (fp line : List Char) (result : result_t)
    (ht : ∀ x ∈ fileLines fp, TextLine x) :
    svn_read_custom fp line 1024 2 result = .ret (custom_lines (fileLines fp) result) := by
  unfold svn_read_custom
  have hfuel1 : 5 + 1 - 2 = 3 + 1 := rfl
  rw [hfuel1]
  rcases hls : fileLines fp with _ | ⟨l2, _ | ⟨l3, _ | ⟨l4, _ | ⟨l5, rest⟩⟩⟩⟩
  · rw [read_while_eof 5 4 2 fp line rfl (by rw [hls]; simp) ht]; simp [custom_lines]
  · rw [read_while_eof 5 4 2 fp line rfl (by rw [hls]; simp) ht]; simp [custom_lines]
  · rw [read_while_eof 5 4 2 fp line rfl (by rw [hls]; simp) ht]; simp [custom_lines]
  · rw [read_while_eof 5 4 2 fp line rfl (by rw [hls]; simp) ht]; simp [custom_lines]
  · rw [hls] at ht
    obtain ⟨raw5, fp1, hrw, hrest, _, hraw5⟩ :=
      read_while_ok 5 3 2 fp line [l2, l3, l4] l5 rest rfl hls rfl
        (fun x hx => ht x (by simp at hx ⊢; tauto)) (ht l5 (by simp))
    rw [hrw]
    cases rest with
    | nil =>
      have := fileLines_eq_nil fp1 hrest
      subst this
      simp [fgets, custom_lines]
    | cons l6 rest2 =>
      have h5 : TextLine l5 := ht l5 (by simp)
      have h6 : TextLine l6 := ht l6 (by simp)
      obtain ⟨raw6, fp2, hfg, hrest2, hchop6, _⟩ := fgets_lines fp1 l6 rest2 hrest h6
      have hraw5 := hraw5 (by simp)
      subst hraw5
      simp only [hfg, hchop6, repos_path_obj l5 h5.2]
      have hc : cstr (l5 ++ [NUL, NUL]) = l5 := cstr_append_nul l5 [NUL] h5.2
      rw [hc]
      have hcl : custom_lines (l2 :: l3 :: l4 :: l5 :: l6 :: rest2) result =
          if l6 <+: l5 then
            match rest2[4]? with
            | some l11 =>
              (true, { result with branch := get_branch_name (l5.drop (l6.length + 1)),
                                   revision := some l11 })
            | none => (false, { result with branch := get_branch_name (l5.drop (l6.length + 1)) })
          else (false, result) := by simp [custom_lines]
      rw [hcl]
      by_cases hp : l6 <+: l5
      · have hcmp : strncmp_eq l5 l6 l6.length = true := (strncmp_eq_iff l5 l6).mpr hp
        rw [if_pos hp]
        simp only [hcmp, Bool.not_true, Bool.false_eq_true, if_false,
          obj_str_repos_path l5 l6.length h5.2 hp.length_le]
        have hfuel2 : 11 + 1 - (5 + 1 + 1) = 4 + 1 := rfl
        rw [hfuel2]
        have ht2 : ∀ x ∈ fileLines fp2, TextLine x := by
          rw [hrest2]; exact fun x hx => ht x (by simp at hx ⊢; tauto)
        rcases hr2 : rest2 with _ | ⟨l7, _ | ⟨l8, _ | ⟨l9, _ | ⟨l10, _ | ⟨l11, rest3⟩⟩⟩⟩⟩
        · rw [read_while_eof 11 5 7 fp2 raw6 rfl (by rw [hrest2, hr2]; simp) ht2]; simp
        · rw [read_while_eof 11 5 7 fp2 raw6 rfl (by rw [hrest2, hr2]; simp) ht2]; simp
        · rw [read_while_eof 11 5 7 fp2 raw6 rfl (by rw [hrest2, hr2]; simp) ht2]; simp
        · rw [read_while_eof 11 5 7 fp2 raw6 rfl (by rw [hrest2, hr2]; simp) ht2]; simp
        · rw [read_while_eof 11 5 7 fp2 raw6 rfl (by rw [hrest2, hr2]; simp) ht2]; simp
        · rw [hr2] at hrest2 ht
          obtain ⟨raw11, fp3, hrw2, _, hchop11, _⟩ :=
            read_while_ok 11 4 7 fp2 raw6 [l7, l8, l9, l10] l11 rest3 rfl hrest2 rfl
              (fun x hx => ht x (by simp at hx ⊢; tauto)) (ht l11 (by simp))
          rw [hrw2]
          simp only [hchop11]
          simp
      · have hcmp : strncmp_eq l5 l6 l6.length = false := by
          rw [← Bool.not_eq_true]
          exact fun e => hp ((strncmp_eq_iff l5 l6).mp e)
        rw [if_neg hp]
        simp only [hcmp, Bool.not_false, if_true]

/-- Every character of a line is a character of the file. -/
theorem mem_of_mem_fileLines (s : List Char) :
    ∀ l ∈ fileLines s, ∀ c ∈ l, c ∈ s := by
  induction s with
  | nil => intro l hl; simp [fileLines] at hl
  | cons a cs ih =>
    intro l hl c hc
    simp only [fileLines] at hl
    split at hl
    · rcases List.mem_cons.mp hl with rfl | h
      · simp at hc
      · exact List.mem_cons_of_mem _ (ih l h c hc)
    · split at hl
      next heq =>
        simp only [List.mem_singleton] at hl
        subst hl
        simp only [List.mem_singleton] at hc
        subst hc
        exact List.mem_cons_self _ _
      next l1 ls1 heq =>
        rcases List.mem_cons.mp hl with rfl | h
        · rcases List.mem_cons.mp hc with rfl | h1
          · exact List.mem_cons_self _ _
          · exact List.mem_cons_of_mem _ (ih l1 (by rw [heq]; simp) c h1)
        · exact List.mem_cons_of_mem _ (ih l (by rw [heq]; simp [h]) c hc)

/-- The lines of a NUL-free file with short lines are text lines. -/
theorem textLine_of_text (s : List Char)
    (hshort : ∀ l ∈ fileLines s, l.length + 1 < 1024) (hnul : NUL ∉ s) :
    ∀ l ∈ fileLines s, TextLine l :=
  fun l hl => ⟨hshort l hl, fun m => hnul (mem_of_mem_fileLines s l hl NUL m)⟩

/-- On an entries file of text lines whose first line starts with a digit, and
without `wc.db`, `svn_get_info` returns what `custom_lines` computes from the
lines after the first, and `svn_read_custom` is entered with those lines. -/
theorem svn_get_info_custom (have_sqlite : Bool) (content : List Char) (c : Char)
    (t : List Char) (ls : List (List Char))
    (hlines : fileLines content = (c :: t) :: ls)
    (htext : ∀ l ∈ fileLines content, TextLine l)
    (hdigit : isdigit c = true) :
    (∃ raw fp, fgets 1024 content = some (raw, fp) ∧
      svn_read_custom fp raw 1024 2 init_result = .ret (custom_lines ls init_result)) ∧
    svn_get_info have_sqlite ⟨some content, none⟩ =
      if (custom_lines ls init_result).1 then .ret (some (custom_lines ls init_result).2)
      else .ret none := by
  obtain ⟨raw, fp, hfg, hrest, hchop, _⟩ :=
    fgets_lines content (c :: t) ls hlines (htext _ (by rw [hlines]; simp))
  have hhead : raw.headD NUL = c := by
    unfold chop_newline at hchop
    split at hchop
    · cases raw with
      | nil => simp at hchop
      | cons a b =>
        cases b with
        | nil => simp at hchop
        | cons b1 b2 =>
          simp only [List.dropLast_cons₂, List.cons.injEq] at hchop
          simpa using hchop.1
    · subst hchop; rfl
  have ht2 : ∀ x ∈ fileLines fp, TextLine x := by
    rw [hrest]; exact fun x hx => htext x (by rw [hlines]; exact List.mem_cons_of_mem _ hx)
  have hcustom := svn_read_custom_lines fp raw init_result ht2
  rw [hrest] at hcustom
  refine ⟨⟨raw, fp, hfg, hcustom⟩, ?_⟩
  unfold svn_get_info
  simp only [hfg, hhead, hdigit, if_true, hcustom]

/-- C8: for an entries file in the custom format (no wc.db, first line starting
with a digit, every line shorter than the 1024-byte buffer, no NUL byte) with
at least 11 lines whose line 6 is a strict prefix of line 5, `svn_get_info`
returns a record whose revision is line 11 and whose branch is
`get_branch_name` of line 5 without the line-6 prefix and the character after
it. -/
theorem svn_custom_record (have_sqlite : Bool)
    (content l1 l2 l3 l4 l5 l6 l7 l8 l9 l10 l11 : List Char) (more : List (List Char))
    (hlines : fileLines content =
      l1 :: l2 :: l3 :: l4 :: l5 :: l6 :: l7 :: l8 :: l9 :: l10 :: l11 :: more)
    (hshort : ∀ l ∈ fileLines content, l.length + 1 < 1024)
    (hnul : NUL ∉ content)
    (hdigit : ∃ c t, l1 = c :: t ∧ isdigit c = true)
    (hpfx : l6 <+: l5 ∧ l6 ≠ l5) :
    svn_get_info have_sqlite ⟨some content, none⟩ =
      .ret (some { branch := get_branch_name (l5.drop (l6.length + 1)),
                   revision := some l11, modified := false, unknown := false }) := by
  obtain ⟨c, t, rfl, hc⟩ := hdigit
  have h := (svn_get_info_custom have_sqlite content c t _ hlines
    (textLine_of_text content hshort hnul) hc).2
  rw [h]
  simp [custom_lines, hpfx.1, init_result]

/-- C8 on a checkout of `http://h/repo/trunk/doc` at revision 1234. -/
theorem svn_custom_record_witness :
    svn_get_info false ⟨some entries_trunk, none⟩ =
      .ret (some { branch := some "trunk".toList, revision := some "1234".toList,
                   modified := false, unknown := false }) :=
  svn_custom_record false entries_trunk "10".toList [] "dir".toList "1234".toList
    "http://h/repo/trunk/doc".toList "http://h/repo".toList [] [] [] [] "1234".toList [[]]
    (by decide) (by decide) (by decide) ⟨_, _, rfl, by decide⟩ ⟨by decide, by decide⟩

/-- C9, as stated, fails: in the first entries file line 6 equals line 5, and
`svn_get_info` returns a record all the same.  In the second, line 5 has 1024
characters and line 6 ("zzz") is no prefix of it, but `fgets` delivers the last
character of line 5 as the root URL, which is a prefix of the first 1023: a
record is returned.  In the third, line 6 holds a NUL byte and is no prefix of
line 5, but the string in the buffer ends at the NUL and is one: a record is
returned. -/
theorem svn_custom_equal_root_returns_record :
    ((fileLines entries_root)[4]? = (fileLines entries_root)[5]? ∧
      svn_get_info false ⟨some entries_root, none⟩ =
        .ret (some { branch := none, revision := some "1234".toList,
                     modified := false, unknown := false })) ∧
    ((fileLines entries_long_url)[4]? = some ('h' :: List.replicate 1022 'a' ++ ['h']) ∧
      (fileLines entries_long_url)[5]? = some "zzz".toList ∧
      svn_get_info false ⟨some entries_long_url, none⟩ =
        .ret (some { branch := none, revision := some "1234".toList,
                     modified := false, unknown := false })) ∧
    ((fileLines entries_nul_root)[4]? = some "http://h/repo/trunk".toList ∧
      (fileLines entries_nul_root)[5]? = some ("http://h/repo".toList ++ NUL :: "junk".toList) ∧
      svn_get_info false ⟨some entries_nul_root, none⟩ =
        .ret (some { branch := some "trunk".toList, revision := some "1234".toList,
                     modified := false, unknown := false })) := by
  refine ⟨⟨by decide, by decide⟩, ⟨by decide!, by decide!, by decide!⟩,
    ⟨by decide, by decide, by decide⟩⟩

/-- C9, amended: for an entries file in the custom format (no wc.db, first line
starting with a digit, every line shorter than the 1024-byte buffer, no NUL
byte) whose line 6 is not a prefix of line 5, `svn_read_custom` reports failure
without having stored a branch, and `svn_get_info` returns NULL. -/
theorem svn_custom_root_mismatch (have_sqlite : Bool)
    (content l1 l2 l3 l4 l5 l6 : List Char) (more : List (List Char))
    (hlines : fileLines content = l1 :: l2 :: l3 :: l4 :: l5 :: l6 :: more)
    (hshort : ∀ l ∈ fileLines content, l.length + 1 < 1024)
    (hnul : NUL ∉ content)
    (hdigit : ∃ c t, l1 = c :: t ∧ isdigit c = true)
    (hpfx : ¬ l6 <+: l5) :
    (∃ line fp, fgets 1024 content = some (line, fp) ∧
      svn_read_custom fp line 1024 2 init_result = .ret (false, init_result)) ∧
    svn_get_info have_sqlite ⟨some content, none⟩ = .ret none := by
  obtain ⟨c, t, rfl, hc⟩ := hdigit
  obtain ⟨⟨line, fp, hfg, hcustom⟩, h⟩ := svn_get_info_custom have_sqlite content c t _ hlines
    (textLine_of_text content hshort hnul) hc
  have hcl : custom_lines (l2 :: l3 :: l4 :: l5 :: l6 :: more) init_result
      = (false, init_result) := by
    simp [custom_lines, hpfx]
  rw [hcl] at hcustom h
  exact ⟨⟨line, fp, hfg, hcustom⟩, h⟩

/-- C9, amended, on an entries file whose root URL names another host. -/
theorem svn_custom_root_mismatch_witness :
    (∃ line fp, fgets 1024 entries_foreign_root = some (line, fp) ∧
      svn_read_custom fp line 1024 2 init_result = .ret (false, init_result)) ∧
    svn_get_info false ⟨some entries_foreign_root, none⟩ = .ret none :=
  svn_custom_root_mismatch false entries_foreign_root "10".toList [] "dir".toList "1234".toList
    "http://h/repo/trunk".toList "http://other/repo".toList
    [[], [], [], [], "1234".toList, []]
    (by decide) (by decide) (by decide) ⟨_, _, rfl, by decide⟩ (by decide)

/-- C10, as stated, fails on lines that do not fit the buffer and on a NUL
byte: the first entries file has 10 lines, but `fgets` takes its line 2 of 1100 characters in
two parts, 11 reads succeed and a record is returned; the second has 12 lines
and line 6 is a prefix of line 5, but both are longer than the buffer, what
`fgets` delivers sixth is the rest of line 5, and NULL is returned; the third
has 12 lines and line 6 is a prefix of line 5, but it holds a NUL byte, the
copy of line 5 ends there, and the branch is read from outside that copy:
undefined behaviour, no record is returned. -/
theorem svn_custom_line_count_long_lines :
    ((fileLines entries_ten_long).length = 10 ∧
      svn_get_info false ⟨some entries_ten_long, none⟩ =
        .ret (some { branch := some "trunk".toList, revision := some "1234".toList,
                     modified := false, unknown := false })) ∧
    ((fileLines (entries_long_root '/')).length = 12 ∧
      (fileLines (entries_long_root '/'))[4]? = some (long_root ++ '/' :: "trunk".toList) ∧
      (fileLines (entries_long_root '/'))[5]? = some long_root ∧
      svn_get_info false ⟨some (entries_long_root '/'), none⟩ = .ret none) ∧
    ((fileLines entries_nul_in_root).length = 12 ∧
      (fileLines entries_nul_in_root)[4]?
        = some ("http://h/re".toList ++ NUL :: "po/trunk".toList) ∧
      (fileLines entries_nul_in_root)[5]? = some ("http://h/re".toList ++ NUL :: "po".toList) ∧
      svn_get_info false ⟨some entries_nul_in_root, none⟩ = .fault) := by
  refine ⟨⟨by decide!, by decide!⟩, ⟨by decide!, by decide!, by decide!, by decide!⟩,
    ⟨by decide, by decide, by decide, by decide⟩⟩

/-- C10, amended: for an entries file in the custom format (no wc.db, first line
starting with a digit, every line shorter than the 1024-byte buffer, no NUL
byte), `svn_get_info` returns NULL when the file has fewer than 11 lines, and
returns a record when it has 11 lines or more and line 6 is a prefix of
line 5. -/
theorem svn_custom_eleven_lines (have_sqlite : Bool) (content : List Char)
    (hshort : ∀ l ∈ fileLines content, l.length + 1 < 1024)
    (hnul : NUL ∉ content)
    (hdigit : ∃ c t rest, fileLines content = (c :: t) :: rest ∧ isdigit c = true) :
    ((fileLines content).length < 11 →
      svn_get_info have_sqlite ⟨some content, none⟩ = .ret none) ∧
    (11 ≤ (fileLines content).length →
      (∃ l5 l6, (fileLines content)[4]? = some l5 ∧ (fileLines content)[5]? = some l6 ∧
        l6 <+: l5) →
      ∃ r, svn_get_info have_sqlite ⟨some content, none⟩ = .ret (some r)) := by
  obtain ⟨c, t, ls, hlines, hc⟩ := hdigit
  have h := (svn_get_info_custom have_sqlite content c t ls hlines
    (textLine_of_text content hshort hnul) hc).2
  rw [h, hlines]
  constructor
  · intro hlen
    have h9 : ls[9]? = none := by
      rw [List.getElem?_eq_none_iff]
      simp only [List.length_cons] at hlen
      omega
    have : (custom_lines ls init_result).1 = false := by
      unfold custom_lines
      rw [h9]
      split
      · split <;> rfl
      · rfl
    rw [this]
    rfl
  · rintro hlen ⟨l5, l6, h5, h6, hp⟩
    simp only [List.getElem?_cons_succ] at h5 h6
    have hlt : 9 < ls.length := by
      simp only [List.length_cons] at hlen
      omega
    have h9 : ls[9]? = some ls[9] := List.getElem?_eq_getElem hlt
    have : (custom_lines ls init_result).1 = true := by
      unfold custom_lines
      rw [h5, h6, h9]
      simp [hp]
    rw [this]
    exact ⟨_, rfl⟩

/-- C10, amended, on an entries file of 10 lines and on one of 12 lines. -/
theorem svn_custom_eleven_lines_witness :
    svn_get_info false ⟨some entries_ten, none⟩ = .ret none ∧
    ∃ r, svn_get_info false ⟨some entries_trunk, none⟩ = .ret (some r) :=
  ⟨(svn_custom_eleven_lines false entries_ten (by decide) (by decide)
      ⟨_, _, _, rfl, by decide⟩).1 (by decide),
   (svn_custom_eleven_lines false entries_trunk (by decide) (by decide)
      ⟨_, _, _, rfl, by decide⟩).2 (by decide) ⟨_, _, rfl, rfl, by decide⟩⟩

/-! ## `git_get_info`: records, options and the `.git` file -/

/-- Lines 64-90 leave the two flags of the record as they are. -/
theorem git_head_flags (fs : Fs) (options : options_t) (d : Nat) (buf : List Char)
    (r0 : result_t) :
    (git_head fs options d buf r0).modified = r0.modified ∧
    (git_head fs options d buf r0).unknown = r0.unknown := by
  unfold git_head
  simp only [result_set_branch, result_set_revision]
  repeat' split
  all_goals exact ⟨rfl, rfl⟩

/-- What a record returned by `git_get_info` holds: branch and revision come
from lines 64-90 on the first line of HEAD, the flags from the two children,
run in the directory the process ends in. -/
theorem git_get_info_record (fs : Fs) (options : options_t) (dir : Nat) (r : result_t)
    (dir1 : Nat) (h : git_get_info fs options dir = .ret (some r, dir1)) :
    ∃ cwd d buf, fs.getcwd dir = some cwd ∧ git_enter fs dir = some d ∧
      read_first_line fs d "HEAD".toList 1024 = some buf ∧
      dir1 = (chdir fs d cwd).getD d ∧
      r.branch = (git_head fs options d buf init_result).branch ∧
      r.revision = (git_head fs options d buf init_result).revision ∧
      r.modified = (options.show_modified &&
        match fs.capture_child ((chdir fs d cwd).getD d) "git".toList argv_diff with
        | some capture => capture.status == 1
        | none => false) ∧
      r.unknown = (options.show_unknown &&
        match fs.capture_child ((chdir fs d cwd).getD d) "git".toList argv_ls_files with
        | some capture => decide (capture.childout.len > 0)
        | none => false) := by
  unfold git_get_info at h
  cases hcwd : fs.getcwd dir with
  | none =>
    simp only [hcwd] at h
    exact absurd h (by simp)
  | some cwd =>
    cases henter : git_enter fs dir with
    | none =>
      simp only [hcwd, henter] at h
      exact absurd h (by simp)
    | some d =>
      cases hread : read_first_line fs d "HEAD".toList 1024 with
      | none =>
        simp only [hcwd, henter, hread] at h
        exact absurd h (by simp)
      | some buf =>
        simp only [hcwd, henter, hread] at h
        obtain ⟨hm, hu⟩ := git_head_flags fs options d buf init_result
        have hm0 : (git_head fs options d buf init_result).modified = false := hm
        have hu0 : (git_head fs options d buf init_result).unknown = false := hu
        refine ⟨cwd, d, buf, rfl, rfl, hread, ?_⟩
        generalize (chdir fs d cwd).getD d = D at h ⊢
        generalize fs.capture_child D "git".toList argv_diff = c1 at h ⊢
        generalize fs.capture_child D "git".toList argv_ls_files = c2 at h ⊢
        generalize git_head fs options d buf init_result = g at h hm0 hu0 ⊢
        cases hsm : options.show_modified <;> cases hsu : options.show_unknown <;>
          cases c1 <;> cases c2 <;>
          simp only [hsm, hsu, if_true, if_false, Bool.false_eq_true, Outcome.ret.injEq,
            Prod.mk.injEq, Option.some.injEq, reduceCtorEq] at h <;>
          first
          | exact h.elim
          | (obtain ⟨rfl, rfl⟩ := h; simp [hm0, hu0])

/-- C15: in a record returned by `git_get_info`, with show-unknown set the
unknown flag is true exactly when the ls-files child was started (the capture
is not NULL) and its captured standard output has a length above zero; without
show-unknown the flag is false. -/
theorem git_unknown_flag (fs : Fs) (options : options_t) (dir : Nat) (r : result_t)
    (dir1 : Nat) (h : git_get_info fs options dir = .ret (some r, dir1)) :
    (options.show_unknown = true →
      (r.unknown = true ↔
        ∃ capture, fs.capture_child dir1 "git".toList argv_ls_files = some capture ∧
          0 < capture.childout.len)) ∧
    (options.show_unknown = true →
      fs.capture_child dir1 "git".toList argv_ls_files = none → r.unknown = false) ∧
    (options.show_unknown = false → r.unknown = false) := by
  obtain ⟨cwd, d, buf, _, _, _, hd, _, _, _, hu⟩ := git_get_info_record fs options dir r dir1 h
  rw [← hd] at hu
  refine ⟨fun hs => ?_, fun hs hc => ?_, fun hs => ?_⟩
  · rw [hu, hs, Bool.true_and]
    cases hc : fs.capture_child dir1 "git".toList argv_ls_files with
    | none => simp
    | some capture => simp
  · rw [hu, hc, Bool.and_false]
  · rw [hu, hs, Bool.false_and]

/-- C15 with an ls-files child that prints 6 bytes. -/
theorem git_unknown_flag_witness :
    ∃ r dir1, git_get_info fs_untracked ⟨false, false, false, true⟩ 0 = .ret (some r, dir1) ∧
      r.unknown = true :=
  ⟨_, _, rfl,
    ((git_unknown_flag fs_untracked ⟨false, false, false, true⟩ 0 _ _ rfl).1 rfl).mpr
      ⟨_, rfl, by decide⟩⟩

/-- Lines 39-57 when `.git` is a regular file: its first line has to start
with "gitdir: ", go on for at least one character, and name a directory. -/
theorem git_enter_file (fs : Fs) (dir : Nat) (content : List Char)
    (hfile : fs.node dir ".git".toList = some (.file content)) :
    git_enter fs dir =
      match read_first_line fs dir ".git".toList 1024 with
      | some buf =>
        if "gitdir: ".toList <+: buf ∧ 9 ≤ buf.length then chdir fs dir (buf.drop 8) else none
      | none => none := by
  have hisfile : isfile fs dir ".git".toList = true := by
    unfold isfile
    rw [hfile]
  have hchdir : chdir fs dir ".git".toList = none := by
    unfold chdir
    rw [hfile]
  unfold git_enter
  rw [hisfile, if_pos rfl, hchdir]
  cases read_first_line fs dir ".git".toList 1024 with
  | none => rfl
  | some buf =>
    have hp : strncmp_eq buf "gitdir: ".toList 8 = true ↔ "gitdir: ".toList <+: buf :=
      strncmp_eq_iff buf "gitdir: ".toList
    by_cases h1 : "gitdir: ".toList <+: buf
    · by_cases h2 : 9 ≤ buf.length
      · simp only [hp.mpr h1, Bool.not_true, Bool.false_eq_true, if_false, Nat.not_lt.mpr h2,
          h1, h2, and_self, if_true]
      · simp only [hp.mpr h1, Bool.not_true, Bool.false_eq_true, if_false, Nat.lt_of_not_le h2,
          if_true, h2, and_false]
    · have h3 : strncmp_eq buf "gitdir: ".toList 8 = false := by
        rw [← Bool.not_eq_true]; exact fun e => h1 (hp.mp e)
      simp only [h3, Bool.not_false, if_true, h1, false_and, if_false]

/-- `git_get_info` returns NULL, without a change of directory, when the
metadata directory cannot be entered. -/
theorem git_get_info_not_entered (fs : Fs) (options : options_t) (dir : Nat)
    (h : git_enter fs dir = none) : git_get_info fs options dir = .ret (none, dir) := by
  unfold git_get_info
  cases fs.getcwd dir with
  | none => rfl
  | some cwd => simp only [h]

/-- C16: when `.git` is a regular file, `git_get_info` returns a record only
if the first line of the file is "gitdir: " followed by a non-empty path into
which `chdir` succeeds; it returns NULL when the file has no first line to
read, when the line lacks the prefix, when nothing follows the prefix, and
when `chdir` into the path fails. -/
theorem git_file_marker (fs : Fs) (options : options_t) (dir : Nat) (content : List Char)
    (hfile : fs.node dir ".git".toList = some (.file content)) :
    (∀ r dir1, git_get_info fs options dir = .ret (some r, dir1) →
      ∃ path, read_first_line fs dir ".git".toList 1024 = some ("gitdir: ".toList ++ path) ∧
        path ≠ [] ∧ (chdir fs dir path).isSome = true) ∧
    ((read_first_line fs dir ".git".toList 1024 = none ∨
      ∃ buf, read_first_line fs dir ".git".toList 1024 = some buf ∧
        (¬ "gitdir: ".toList <+: buf ∨ buf = "gitdir: ".toList ∨
          chdir fs dir (buf.drop 8) = none)) →
      git_get_info fs options dir = .ret (none, dir)) := by
  have henter := git_enter_file fs dir content hfile
  constructor
  · intro r dir1 h
    obtain ⟨cwd, d, _, _, hd, _⟩ := git_get_info_record fs options dir r dir1 h
    rw [hd] at henter
    cases hread : read_first_line fs dir ".git".toList 1024 with
    | none => rw [hread] at henter; exact absurd henter (by simp)
    | some buf =>
      rw [hread] at henter
      simp only at henter
      split at henter
      next hcond =>
        obtain ⟨⟨path, rfl⟩, hlen⟩ := hcond
        have h8 : "gitdir: ".toList.length = 8 := rfl
        refine ⟨path, rfl, ?_, ?_⟩
        · rintro rfl
          simp at hlen
        · rw [← h8, List.drop_left] at henter
          rw [← henter]
          rfl
      next => exact absurd henter (by simp)
  · intro h
    apply git_get_info_not_entered
    rw [henter]
    rcases h with h | ⟨buf, hread, h⟩
    · rw [h]
    · rw [hread]
      simp only
      rcases h with h | h | h
      · rw [if_neg (fun hc => h hc.1)]
      · subst h
        rw [if_neg (fun hc => absurd hc.2 (by decide))]
      · split
        · exact h
        · rfl

/-- C16 on a submodule whose `.git` file reads "gitdir: ../.git/modules/sub". -/
theorem git_file_marker_witness :
    ∃ path, read_first_line fs_submodule 0 ".git".toList 1024
        = some ("gitdir: ".toList ++ path) ∧
      path ≠ [] ∧ (chdir fs_submodule 0 path).isSome = true :=
  (git_file_marker fs_submodule ⟨true, true, false, false⟩ 0
    "gitdir: ../.git/modules/sub\n".toList rfl).1 _ _ rfl

/-- Lines 64-90 without show-branch and without show-revision change
nothing. -/
theorem git_head_not_shown (fs : Fs) (options : options_t) (d : Nat) (buf : List Char)
    (r0 : result_t) (hb : options.show_branch = false) (hr : options.show_revision = false) :
    git_head fs options d buf r0 = r0 := by
  unfold git_head
  simp only [hb, hr, Bool.or_self, Bool.false_eq_true, if_false]

/-- Lines 64-90 with show-branch or show-revision always store a branch. -/
theorem git_head_branch_ne_none (fs : Fs) (options : options_t) (d : Nat) (buf : List Char)
    (r0 : result_t) (hshow : options.show_branch = true ∨ options.show_revision = true) :
    (git_head fs options d buf r0).branch ≠ none := by
  have hor : (options.show_branch || options.show_revision) = true := by
    rcases hshow with h | h <;> simp [h]
  unfold git_head
  simp only [hor, if_true, result_set_branch, result_set_revision]
  repeat' split
  all_goals simp

/-- Lines 64-90 without show-revision on a HEAD line that names a branch
store no revision. -/
theorem git_head_no_revision (fs : Fs) (options : options_t) (d : Nat) (buf : List Char)
    (hr : options.show_revision = false) (hp : "ref: refs/heads/".toList <+: buf) :
    (git_head fs options d buf init_result).revision = none := by
  have hcmp : strncmp_eq "ref: refs/heads/".toList buf "ref: refs/heads/".toList.length = true := by
    obtain ⟨t, rfl⟩ := hp
    unfold strncmp_eq
    rw [List.take_length, List.take_left, beq_self_eq_true]
  unfold git_head
  simp only [hr, hcmp, if_true, result_set_branch, Bool.false_and, Bool.false_eq_true, if_false]
  split <;> rfl

/-- C17, as stated, fails: with show-branch alone a detached HEAD still yields
a revision, and with show-revision alone the branch is stored as well. -/
theorem git_fields_beyond_options :
    git_get_info fs_detached ⟨true, false, false, false⟩ 0 =
      .ret (some { branch := some "(unknown)".toList, revision := some "abcdef012345".toList,
                   modified := false, unknown := false }, 0) ∧
    git_get_info fs_on_branch ⟨false, true, false, false⟩ 0 =
      .ret (some { branch := some "main".toList, revision := some "deadbeef0011".toList,
                   modified := false, unknown := false }, 0) := by
  constructor <;> rfl

/-- C17, amended: in a record returned by `git_get_info`, where `buf` is the
first line read from HEAD: without show-branch and show-revision both branch
and revision are absent; with either of them the branch is stored, and on a
HEAD line that does not name a branch so are its first 12 characters as
revision; without show-revision a HEAD line that names a branch leaves the
revision absent; without show-modified modified is false; without show-unknown
unknown is false. -/
theorem git_option_fields (fs : Fs) (options : options_t) (dir : Nat) (r : result_t)
    (dir1 : Nat) (h : git_get_info fs options dir = .ret (some r, dir1)) :
    ∃ d buf, git_enter fs dir = some d ∧ read_first_line fs d "HEAD".toList 1024 = some buf ∧
      (options.show_branch = false → options.show_revision = false →
        r.branch = none ∧ r.revision = none) ∧
      (options.show_branch = true ∨ options.show_revision = true → r.branch ≠ none) ∧
      (options.show_branch = true ∨ options.show_revision = true →
        ¬ "ref: refs/heads/".toList <+: buf → r.revision = some (buf.take 12)) ∧
      (options.show_revision = false → "ref: refs/heads/".toList <+: buf →
        r.revision = none) ∧
      (options.show_modified = false → r.modified = false) ∧
      (options.show_unknown = false → r.unknown = false) := by
  obtain ⟨cwd, d, buf, _, henter, hread, _, hb, hv, hm, hu⟩ :=
    git_get_info_record fs options dir r dir1 h
  refine ⟨d, buf, henter, hread, ?_, ?_, ?_, ?_, ?_, ?_⟩
  · intro h1 h2
    rw [hb, hv, git_head_not_shown fs options d buf init_result h1 h2]
    exact ⟨rfl, rfl⟩
  · intro hshow
    rw [hb]
    exact git_head_branch_ne_none fs options d buf init_result hshow
  · intro hshow hp
    rw [hv, git_head_detached fs options d buf hshow hp]
  · intro h1 hp
    rw [hv]
    exact git_head_no_revision fs options d buf h1 hp
  · intro h1
    rw [hm, h1, Bool.false_and]
  · intro h1
    rw [hu, h1, Bool.false_and]

/-- C17, amended, on a branch HEAD with show-branch alone. -/
theorem git_option_fields_witness :
    ∃ r dir1, git_get_info fs_untracked ⟨true, false, false, false⟩ 0 = .ret (some r, dir1) ∧
      r.branch ≠ none ∧ r.revision = none ∧ r.modified = false ∧ r.unknown = false := by
  obtain ⟨d, buf, h1, h2, _, hb, _, hv, hm, hu⟩ :=
    git_option_fields fs_untracked ⟨true, false, false, false⟩ 0 _ _ rfl
  have hd : d = 1 := by
    have : git_enter fs_untracked 0 = some 1 := by decide
    rw [this] at h1
    exact (Option.some.inj h1).symm
  subst hd
  have hbuf : buf = "ref: refs/heads/main".toList := by
    have : read_first_line fs_untracked 1 "HEAD".toList 1024
        = some "ref: refs/heads/main".toList := by decide
    rw [this] at h2
    exact (Option.some.inj h2).symm
  subst hbuf
  exact ⟨_, _, rfl, hb (Or.inl rfl), hv rfl (by decide), hm rfl, hu rfl⟩

/-! ## `svn_read_xml` and the choice of the parser -/

/-- `strstr` returns NULL exactly when the string does not contain the
pattern. -/
theorem strstr_eq_none_iff (l m : List Char) : strstr l m = none ↔ ¬ m <:+: l := by
  induction l with
  | nil =>
    unfold strstr
    by_cases hm : m = []
    · simp [hm]
    · simp [hm]
  | cons c cs ih =>
    unfold strstr
    rw [List.infix_cons_iff, not_or]
    by_cases hp : m <+: c :: cs
    · have : m.isPrefixOf (c :: cs) = true := List.isPrefixOf_iff_prefix.mpr hp
      simp [this, hp]
    · have : m.isPrefixOf (c :: cs) = false := by
        rw [← Bool.not_eq_true]; exact fun e => hp (List.isPrefixOf_iff_prefix.mp e)
      simp [this, hp, ih]

/-- The offset `strstr` returns is that of the first occurrence of the
pattern. -/
theorem strstr_eq_some_iff (l m : List Char) (k : Nat) :
    strstr l m = some k ↔ k ≤ l.length ∧ m <+: l.drop k ∧ ∀ j < k, ¬ m <+: l.drop j := by
  induction l generalizing k with
  | nil =>
    unfold strstr
    by_cases hm : m = []
    · subst hm
      simp only [if_true, Option.some.injEq, List.length_nil, Nat.le_zero_eq, List.drop_nil]
      constructor
      · rintro rfl
        exact ⟨rfl, List.prefix_rfl, fun j hj => absurd hj (Nat.not_lt_zero j)⟩
      · exact fun h => h.1.symm
    · simp only [hm, if_false, List.length_nil, Nat.le_zero_eq, List.drop_nil,
        List.prefix_nil, false_and, and_false, reduceCtorEq]
  | cons c cs ih =>
    unfold strstr
    by_cases hp : m <+: c :: cs
    · have hb : m.isPrefixOf (c :: cs) = true := List.isPrefixOf_iff_prefix.mpr hp
      simp only [hb, if_true, Option.some.injEq]
      constructor
      · rintro rfl
        exact ⟨Nat.zero_le _, hp, fun j hj => absurd hj (Nat.not_lt_zero j)⟩
      · rintro ⟨_, _, h3⟩
        cases k with
        | zero => rfl
        | succ k => exact absurd hp (h3 0 (Nat.succ_pos k))
    · have hb : m.isPrefixOf (c :: cs) = false := by
        rw [← Bool.not_eq_true]; exact fun e => hp (List.isPrefixOf_iff_prefix.mp e)
      simp only [hb, Bool.false_eq_true, if_false]
      cases k with
      | zero =>
        simp only [Option.map_eq_some', Nat.add_one_ne_zero, and_false, exists_false,
          List.drop_zero, false_iff]
        exact fun h => hp h.2.1
      | succ k =>
        simp only [Option.map_eq_some', Nat.add_right_cancel_iff, exists_eq_right,
          List.length_cons, Nat.add_le_add_iff_right, List.drop_succ_cons]
        rw [ih k]
        constructor
        · rintro ⟨h1, h2, h3⟩
          refine ⟨h1, h2, fun j hj => ?_⟩
          cases j with
          | zero => exact hp
          | succ j => exact h3 j (Nat.lt_of_succ_lt_succ hj)
        · rintro ⟨h1, h2, h3⟩
          exact ⟨h1, h2, fun j hj => h3 (j + 1) (Nat.succ_lt_succ hj)⟩

/-- One `fgets` call splits the stream into the bytes read and the rest. -/
theorem read_chunk_append (n : Nat) (s : List Char) :
    (read_chunk n s).1 ++ (read_chunk n s).2 = s := by
  induction s generalizing n with
  | nil => cases n <;> rfl
  | cons c cs ih =>
    cases n with
    | zero => rfl
    | succ n =>
      unfold read_chunk
      split
      · rfl
      · simp [ih n]

/-- The string `fgets` delivers is a piece of the stream, the rest is its
tail, and the rest is shorter when the buffer has room for a byte. -/
theorem fgets_parts (n : Nat) (s line rest : List Char)
    (h : fgets (n + 2) s = some (line, rest)) :
    line <:+: s ∧ rest <:+ s ∧ rest.length < s.length := by
  cases s with
  | nil => simp [fgets] at h
  | cons c cs =>
    simp only [fgets, Nat.add_one_sub_one, Option.some.injEq, Prod.mk.injEq] at h
    obtain ⟨rfl, rfl⟩ := h
    have happ := read_chunk_append (n + 1) (c :: cs)
    refine ⟨?_, ⟨_, happ⟩, ?_⟩
    · exact ((List.takeWhile_prefix _).trans ⟨_, happ⟩).isInfix
    · have hlen := congrArg List.length happ
      rw [List.length_append] at hlen
      have hpos : 0 < (read_chunk (n + 1) (c :: cs)).1.length := by
        unfold read_chunk
        split <;> simp
      omega

/-- The scan of `svn_read_xml` finds nothing in a stream that does not contain
the marker, whatever the bound on its iterations. -/
theorem xml_scan_none (marker : List Char) (fuel : Nat) :
    ∀ fp : List Char, ¬ marker <:+: fp → xml_scan 1024 marker fuel fp = none := by
  induction fuel with
  | zero => intro fp _; rfl
  | succ fuel ih =>
    intro fp hno
    unfold xml_scan
    cases hfg : fgets 1024 fp with
    | none => rfl
    | some r =>
      obtain ⟨line, rest⟩ := r
      obtain ⟨h1, h2, _⟩ := fgets_parts 1022 fp line rest hfg
      have hline : strstr line marker = none :=
        (strstr_eq_none_iff line marker).mpr (fun hc => hno (hc.trans h1))
      simp only [hline]
      exact ih rest (fun hc => hno (hc.trans h2.isInfix))

/-- The first character in the buffer after the first `fgets` is the first
byte of the file (NUL for a file that starts with NUL). -/
theorem fgets_headD (s line rest : List Char) (h : fgets 1024 s = some (line, rest)) :
    line.headD NUL = s.headD NUL := by
  cases s with
  | nil => simp [fgets] at h
  | cons c cs =>
    simp only [fgets, Option.some.injEq, Prod.mk.injEq] at h
    obtain ⟨rfl, _⟩ := h
    have hc : (read_chunk 1023 (c :: cs)).1.head? = some c := by
      unfold read_chunk
      split <;> rfl
    cases hch : (read_chunk 1023 (c :: cs)).1 with
    | nil => rw [hch] at hc; simp at hc
    | cons a t =>
      rw [hch] at hc
      simp only [List.head?_cons, Option.some.injEq] at hc
      subst hc
      unfold cstr
      by_cases ha : a = NUL
      · simp [List.takeWhile_cons, ha]
      · simp [List.takeWhile_cons, ha]

/-- The bound on the iterations of the line-skipping loop is enough: a larger
one gives the same result. -/
theorem read_while_fuel (limit size : Nat) (fuel : Nat) :
    ∀ (n : Nat) (fp line : List Char), limit + 1 - n ≤ fuel →
      read_while limit size fuel n fp line
        = read_while limit size (limit + 1 - n) n fp line := by
  induction fuel with
  | zero =>
    intro n fp line h
    have : limit + 1 - n = 0 := Nat.le_zero.mp h
    rw [this]
  | succ fuel ih =>
    intro n fp line h
    by_cases hle : n ≤ limit
    · have hsub : limit + 1 - n = (limit + 1 - (n + 1)) + 1 := by omega
      rw [hsub, read_while, read_while]
      simp only [hle, if_true]
      cases fgets size fp with
      | none => rfl
      | some r => exact ih (n + 1) r.2 r.1 (by omega)
    · have hsub : limit + 1 - n = 0 := by omega
      rw [hsub, read_while, read_while]
      simp only [hle, if_false]

/-- The bound on the iterations of the scan of `svn_read_xml` is enough: any
bound above the number of bytes left gives the same result. -/
theorem xml_scan_fuel (marker : List Char) (fuel : Nat) :
    ∀ (fp : List Char) (fuel1 : Nat), fp.length < fuel → fp.length < fuel1 →
      xml_scan 1024 marker fuel fp = xml_scan 1024 marker fuel1 fp := by
  induction fuel with
  | zero => intro fp fuel1 h; exact absurd h (Nat.not_lt_zero _)
  | succ fuel ih =>
    intro fp fuel1 h h1
    cases fuel1 with
    | zero => exact absurd h1 (Nat.not_lt_zero _)
    | succ f1 =>
      unfold xml_scan
      cases hfg : fgets 1024 fp with
      | none => rfl
      | some r =>
        obtain ⟨line, rest⟩ := r
        obtain ⟨_, _, hlen⟩ := fgets_parts 1022 fp line rest hfg
        simp only
        cases strstr line marker with
        | some k => rfl
        | none => exact ih rest f1 (by omega) (by omega)

/-- C12: for an entries file in the XML-ish format (no wc.db, first byte no
digit) that nowhere contains "revision=", `svn_read_xml` reports failure and
`svn_get_info` returns NULL. -/
theorem svn_xml_no_marker (have_sqlite : Bool) (content : List Char)
    (hfirst : isdigit (content.headD NUL) = false)
    (hno : ¬ "revision=".toList <:+: content) :
    (∀ line fp, fgets 1024 content = some (line, fp) →
      svn_read_xml fp line 1024 2 init_result = .ret (false, init_result)) ∧
    svn_get_info have_sqlite ⟨some content, none⟩ = .ret none := by
  have hxml : ∀ line fp, fgets 1024 content = some (line, fp) →
      svn_read_xml fp line 1024 2 init_result = .ret (false, init_result) := by
    intro line fp hfg
    obtain ⟨_, h2, _⟩ := fgets_parts 1022 content line fp hfg
    unfold svn_read_xml
    simp only [xml_scan_none "revision=".toList (fp.length + 1) fp
      (fun hc => hno (hc.trans h2.isInfix))]
  refine ⟨hxml, ?_⟩
  cases hfg : fgets 1024 content with
  | none => simp only [svn_get_info, hfg]
  | some r =>
    obtain ⟨line, fp⟩ := r
    have hd : isdigit (line.headD NUL) = false := by
      rw [fgets_headD content line fp hfg]; exact hfirst
    simp only [svn_get_info, hfg, hd, Bool.false_eq_true, if_false, hxml line fp hfg]

/-- C12 on an XML-ish entries file without `revision=`. -/
theorem svn_xml_no_marker_witness :
    (∀ line fp, fgets 1024 entries_xml_no_marker = some (line, fp) →
      svn_read_xml fp line 1024 2 init_result = .ret (false, init_result)) ∧
    svn_get_info false ⟨some entries_xml_no_marker, none⟩ = .ret none :=
  svn_xml_no_marker false entries_xml_no_marker (by decide) (by decide)

/-- C14: in a build without sqlite3, `svn_get_info` returns NULL whenever
`.svn/wc.db` exists, whatever the entries file holds (also when it cannot be
opened). -/
theorem svn_wc_db_without_sqlite (entries : Option (List Char)) (db : WcDb) :
    svn_get_info false ⟨entries, some db⟩ = .ret none := by
  cases entries with
  | none => rfl
  | some content =>
    cases hfg : fgets 1024 content with
    | none => simp only [svn_get_info, hfg]
    | some r => simp only [svn_get_info, hfg, svn_read_sqlite, Bool.not_false, if_true,
        Bool.false_eq_true, if_false]

/-- C13: `svn_get_info` returns NULL when the entries file cannot be opened or
is empty.  Otherwise, with the first line read, the parser it runs is the
sqlite reader when `.svn/wc.db` exists, else the custom reader when the first
byte of the file is a decimal digit, else the XML reader; it returns the record
exactly when that parser reports success and NULL exactly when that parser
reports failure. -/
theorem svn_get_info_selection (have_sqlite : Bool) (wc : SvnWc) :
    (wc.entries = none ∨ wc.entries = some [] → svn_get_info have_sqlite wc = .ret none) ∧
    ∀ content line fp, wc.entries = some content → fgets 1024 content = some (line, fp) →
      let selected :=
        match wc.wc_db with
        | some db => svn_read_sqlite have_sqlite db init_result
        | none =>
          if isdigit (content.headD NUL) then svn_read_custom fp line 1024 2 init_result
          else svn_read_xml fp line 1024 2 init_result
      (∀ r, svn_get_info have_sqlite wc = .ret (some r) ↔ selected = .ret (true, r)) ∧
      (svn_get_info have_sqlite wc = .ret none ↔ ∃ r, selected = .ret (false, r)) := by
  constructor
  · rintro (h | h)
    · simp only [svn_get_info, h]
    · simp only [svn_get_info, h, fgets]
  · intro content line fp hentries hfg
    have hd := fgets_headD content line fp hfg
    have hinfo : svn_get_info have_sqlite wc =
        match (match wc.wc_db with
          | some db => svn_read_sqlite have_sqlite db init_result
          | none =>
            if isdigit (content.headD NUL) then svn_read_custom fp line 1024 2 init_result
            else svn_read_xml fp line 1024 2 init_result) with
        | .fault => .fault
        | .ret (ok, result) => if ok then .ret (some result) else .ret none := by
      simp only [svn_get_info, hentries, hfg, hd]
    intro selected
    rw [hinfo]
    change (∀ r, (match selected with
        | .fault => Outcome.fault
        | .ret (ok, result) => if ok then .ret (some result) else .ret none)
          = .ret (some r) ↔ selected = .ret (true, r)) ∧
      ((match selected with
        | .fault => Outcome.fault
        | .ret (ok, result) => if ok then .ret (some result) else .ret none)
          = .ret none ↔ ∃ r, selected = .ret (false, r))
    generalize selected = s
    cases s with
    | fault => simp
    | ret p =>
      obtain ⟨ok, res⟩ := p
      cases ok <;> simp

/-- C13 on a custom-format entries file: the record comes from
`svn_read_custom`, run on what follows the first line. -/
theorem svn_get_info_selection_witness :
    svn_get_info false ⟨some entries_trunk, none⟩ =
        .ret (some ⟨some "trunk".toList, some "1234".toList, false, false⟩) ↔
      svn_read_custom
        (text_of_lines ["", "dir", "1234", "http://h/repo/trunk/doc", "http://h/repo", "", "",
          "", "", "1234", ""])
        "10\n".toList 1024 2 init_result =
        .ret (true, ⟨some "trunk".toList, some "1234".toList, false, false⟩) :=
  ((svn_get_info_selection false ⟨some entries_trunk, none⟩).2 entries_trunk "10\n".toList
    (text_of_lines ["", "dir", "1234", "http://h/repo/trunk/doc", "http://h/repo", "", "",
      "", "", "1234", ""]) rfl (by decide)).1 _

/-- A pattern without newline starts a string exactly when it starts the
string followed by a newline. -/
theorem isPrefixOf_append_NL (m : List Char) (hNL : NL ∉ m) (hm : m ≠ []) :
    ∀ l : List Char, m.isPrefixOf (l ++ [NL]) = m.isPrefixOf l := by
  induction m with
  | nil => exact absurd rfl hm
  | cons x t ih =>
    intro l
    have hx : x ≠ NL := fun e => hNL (e ▸ List.mem_cons_self _ _)
    have ht : NL ∉ t := fun h => hNL (List.mem_cons_of_mem _ h)
    cases l with
    | nil => simp [List.isPrefixOf, hx]
    | cons c cs =>
      simp only [List.cons_append, List.isPrefixOf]
      cases t with
      | nil => simp [List.isPrefixOf]
      | cons y t1 =>
        have := ih ht (by simp) cs
        simp only [List.append_eq] at this ⊢
        rw [this]

/-- The newline `fgets` leaves at the end of a line does not change where
`strstr` finds a pattern without newline. -/
theorem strstr_append_NL (m : List Char) (hNL : NL ∉ m) (hm : m ≠ []) :
    ∀ l : List Char, strstr (l ++ [NL]) m = strstr l m := by
  intro l
  induction l with
  | nil =>
    have h1 : m.isPrefixOf ([] ++ [NL]) = m.isPrefixOf [] := isPrefixOf_append_NL m hNL hm []
    have h2 : m.isPrefixOf [] = false := by
      cases m with
      | nil => exact absurd rfl hm
      | cons x t => rfl
    rw [h2] at h1
    simp only [List.nil_append] at h1
    simp [strstr, h1, hm]
  | cons c cs ih =>
    have h1 := isPrefixOf_append_NL m hNL hm (c :: cs)
    simp only [List.cons_append] at h1 ⊢
    simp only [strstr, h1, ih]

/-- A string that `chop_newline` turns into `l` is `l` or `l` and a newline. -/
theorem chop_newline_cases (raw l : List Char) (h : chop_newline raw = l) :
    raw = l ++ [NL] ∨ raw = l := by
  unfold chop_newline at h
  split at h
  next hlast =>
    left
    rw [← h]
    exact (List.dropLast_append_getLast? NL hlast).symm
  next => exact Or.inr h

/-- A file has at most as many lines as bytes. -/
theorem length_fileLines_le (s : List Char) : (fileLines s).length ≤ s.length := by
  induction s with
  | nil => simp [fileLines]
  | cons c cs ih =>
    simp only [fileLines]
    split
    · simpa using ih
    · split
      next heq => simp
      next l ls heq =>
        rw [heq] at ih
        simp only [List.length_cons] at ih ⊢
        omega

/-- On a stream of text lines the scan of `svn_read_xml` stops at the first
line that contains the marker and yields that line from the first marker on,
with the newline `fgets` left in place. -/
theorem xml_scan_lines (m : List Char) (hNL : NL ∉ m) (hm : m ≠ []) (line : List Char)
    (post : List (List Char)) (k : Nat) (hline : TextLine line)
    (hk : strstr line m = some k) (fuel : Nat) :
    ∀ (fp : List Char) (pre : List (List Char)), fileLines fp = pre ++ line :: post →
      (∀ x ∈ pre, TextLine x ∧ ¬ m <:+: x) → pre.length < fuel →
      xml_scan 1024 m fuel fp = some (line.drop k ++ [NL]) ∨
      xml_scan 1024 m fuel fp = some (line.drop k) := by
  induction fuel with
  | zero => intro fp pre _ _ h; exact absurd h (Nat.not_lt_zero _)
  | succ fuel ih =>
    intro fp pre hfp hpre hfuel
    unfold xml_scan
    cases pre with
    | nil =>
      obtain ⟨raw, fp1, hfg, _, hchop, _⟩ := fgets_lines fp line post hfp hline
      have hle : k ≤ line.length := ((strstr_eq_some_iff line m k).mp hk).1
      rcases chop_newline_cases raw line hchop with rfl | rfl
      · left
        simp only [hfg, strstr_append_NL m hNL hm line, hk, List.drop_append_of_le_length hle]
      · right
        simp only [hfg, hk]
    | cons p pre1 =>
      obtain ⟨hp, hnop⟩ := hpre p (List.mem_cons_self _ _)
      obtain ⟨raw, fp1, hfg, hrest, hchop, _⟩ :=
        fgets_lines fp p (pre1 ++ line :: post) hfp hp
      have hraw : strstr raw m = none := by
        rcases chop_newline_cases raw p hchop with h | h
        · rw [h, strstr_append_NL m hNL hm p]
          exact (strstr_eq_none_iff p m).mpr hnop
        · rw [h]
          exact (strstr_eq_none_iff p m).mpr hnop
      simp only [hfg, hraw]
      exact ih fp1 pre1 hrest (fun x hx => hpre x (List.mem_cons_of_mem _ hx))
        (by simpa using hfuel)

/-- The marker of `svn_read_xml` holds no newline. -/
theorem marker_no_NL : NL ∉ "revision=".toList := by decide

/-- The marker of `svn_read_xml` holds no double quote. -/
theorem marker_no_quote : ∀ c ∈ "revision=".toList, (c != DQUOTE) = true := by decide

/-- The `sscanf` call of `svn_read_xml` on a string that starts with the
marker: the marker is skipped with everything up to the first double quote,
and the digits after that quote are read. -/
theorem sscanf_rev_marker (t : List Char) :
    sscanf_rev ("revision=".toList ++ t) =
      match t.dropWhile (fun c => c != DQUOTE) with
      | [] => .ret none
      | _ :: s =>
        if s.takeWhile isdigit = [] then .ret none
        else if 100 ≤ (s.takeWhile isdigit).length then .fault
        else .ret (some (s.takeWhile isdigit)) := by
  have hsp : ("revision=".toList ++ t).dropWhile isspace = "revision=".toList ++ t := by
    show ('r' :: ("evision=".toList ++ t)).dropWhile isspace = _
    rw [List.dropWhile_cons_of_neg (by decide)]
    rfl
  have htake : ("revision=".toList ++ t).takeWhile (fun c => c != DQUOTE) ≠ [] := by
    rw [List.takeWhile_append_of_pos marker_no_quote]
    exact List.append_ne_nil_of_left_ne_nil (by decide) _
  have hdrop : ("revision=".toList ++ t).dropWhile (fun c => c != DQUOTE)
      = t.dropWhile (fun c => c != DQUOTE) :=
    List.dropWhile_append_of_pos marker_no_quote
  unfold sscanf_rev
  simp only [hsp, htake, hdrop, if_false]

/-- The `sscanf` call on the marker, a double quote, a run of 1 to 99 digits
and a double quote yields the digits. -/
theorem sscanf_rev_quoted (d b : List Char) (hd : d ≠ [])
    (hdigits : ∀ c ∈ d, isdigit c = true) (hlen : d.length < 100) :
    sscanf_rev ("revision=".toList ++ DQUOTE :: d ++ DQUOTE :: b) = .ret (some d) := by
  have h := sscanf_rev_marker (DQUOTE :: d ++ DQUOTE :: b)
  rw [show "revision=".toList ++ (DQUOTE :: d ++ DQUOTE :: b)
      = "revision=".toList ++ DQUOTE :: d ++ DQUOTE :: b by simp] at h
  rw [h, List.cons_append, List.dropWhile_cons_of_neg (by decide)]
  have hdig : (d ++ DQUOTE :: b).takeWhile isdigit = d := by
    rw [List.takeWhile_append_of_pos hdigits, List.takeWhile_cons_of_neg (by decide),
      List.append_nil]
  simp only [hdig, hd, if_false, Nat.not_le.mpr hlen]

/-- The `sscanf` call returns no number when the first double quote after the
marker is not followed by a digit, also with the newline `fgets` left at the
end of the line. -/
theorem sscanf_rev_no_digit (t t1 : List Char) (ht1 : t1 = t ++ [NL] ∨ t1 = t)
    (hq : ∀ u c v, t = u ++ DQUOTE :: c :: v → DQUOTE ∉ u → isdigit c = false) :
    sscanf_rev ("revision=".toList ++ t1) = .ret none := by
  have hq1 : ∀ u c v, t1 = u ++ DQUOTE :: c :: v → DQUOTE ∉ u → isdigit c = false := by
    rcases ht1 with rfl | rfl
    · intro u c v h hu
      rcases List.eq_nil_or_concat v with rfl | ⟨v1, z, rfl⟩
      · have h2 : t ++ [NL] = (u ++ [DQUOTE]) ++ [c] := by simp [h]
        have := List.append_inj' h2 rfl
        have hc : c = NL := by simpa using this.2.symm
        rw [hc]; decide
      · have h2 : t ++ [NL] = (u ++ DQUOTE :: c :: v1) ++ [z] := by simp [h]
        have := List.append_inj' h2 rfl
        exact hq u c v1 this.1 hu
    · exact hq
  rw [sscanf_rev_marker]
  have hsplit := List.takeWhile_append_dropWhile (fun c => c != DQUOTE) t1
  cases hdw : t1.dropWhile (fun c => c != DQUOTE) with
  | nil => rfl
  | cons x s =>
    simp only
    rw [if_pos]
    have hx : x = DQUOTE := by
      have := List.head_dropWhile_not (fun c => c != DQUOTE) t1 (by rw [hdw]; simp)
      simp only [hdw, List.head_cons] at this
      simpa using this
    subst hx
    cases s with
    | nil => rfl
    | cons c v =>
      rw [hdw] at hsplit
      have hnot : DQUOTE ∉ t1.takeWhile (fun c => c != DQUOTE) := by
        intro hmem
        have := List.mem_takeWhile_imp hmem
        simp at this
      have := hq1 _ c v hsplit.symm hnot
      rw [List.takeWhile_cons_of_neg (by simp [this])]

/-- When "revision=" does not occur in `a` followed by "revision", its first
occurrence in `a`, "revision=", `t` is the one after `a`. -/
theorem strstr_marker (a t : List Char)
    (ha : ¬ "revision=".toList <:+: a ++ "revision".toList) :
    strstr (a ++ "revision=".toList ++ t) "revision=".toList = some a.length := by
  rw [strstr_eq_some_iff]
  refine ⟨by simp, ?_, ?_⟩
  · rw [List.append_assoc, List.drop_left]
    exact List.prefix_append _ _
  · intro j hj hp
    apply ha
    rw [List.append_assoc, List.drop_append_of_le_length (Nat.le_of_lt hj)] at hp
    have h1 : a.drop j ++ "revision".toList <+: a.drop j ++ ("revision=".toList ++ t) :=
      ⟨'=' :: t, by simp⟩
    have hlen : "revision=".toList.length ≤ (a.drop j ++ "revision".toList).length := by
      have h9 : "revision=".toList.length = 9 := rfl
      have h8 : "revision".toList.length = 8 := rfl
      rw [List.length_append, List.length_drop, h9, h8]
      omega
    have h2 : "revision=".toList <+: a.drop j ++ "revision".toList :=
      List.prefix_of_prefix_length_le hp h1 hlen
    have h3 : a.drop j ++ "revision".toList <:+ a ++ "revision".toList :=
      ⟨a.take j, by rw [← List.append_assoc, List.take_append_drop]⟩
    exact h2.isInfix.trans h3.isInfix

/-- On an XML-ish entries file of text lines, the scan of `svn_read_xml` stops
at the first line after line 1 that contains the marker, and the result of
`svn_read_xml` and `svn_get_info` is decided by the `sscanf` call on that line
from its first marker on. -/
theorem svn_get_info_xml_text (have_sqlite : Bool) (content l1 : List Char)
    (pre : List (List Char)) (a t : List Char) (post : List (List Char))
    (hlines : fileLines content = l1 :: (pre ++ (a ++ "revision=".toList ++ t) :: post))
    (hshort : ∀ l ∈ fileLines content, l.length + 1 < 1024)
    (hnul : NUL ∉ content)
    (hfirst : isdigit (content.headD NUL) = false)
    (hpre : ∀ l ∈ pre, ¬ "revision=".toList <:+: l)
    (ha : ¬ "revision=".toList <:+: a ++ "revision".toList) :
    ∃ t1, (t1 = t ++ [NL] ∨ t1 = t) ∧
      (∀ line fp, fgets 1024 content = some (line, fp) →
        svn_read_xml fp line 1024 2 init_result =
          match sscanf_rev ("revision=".toList ++ t1) with
          | .fault => .fault
          | .ret (some rev) => .ret (true, result_set_revision init_result rev (-1))
          | .ret none => .ret (true, init_result)) ∧
      svn_get_info have_sqlite ⟨some content, none⟩ =
        match sscanf_rev ("revision=".toList ++ t1) with
        | .fault => .fault
        | .ret (some rev) => .ret (some (result_set_revision init_result rev (-1)))
        | .ret none => .ret (some init_result) := by
  have htext := textLine_of_text content hshort hnul
  obtain ⟨raw1, fp1, hfg, hrest, _, _⟩ :=
    fgets_lines content l1 _ hlines (htext l1 (by rw [hlines]; simp))
  have hk := strstr_marker a t ha
  have hscan := xml_scan_lines "revision=".toList marker_no_NL (by decide)
    (a ++ "revision=".toList ++ t) post a.length
    (htext _ (by rw [hlines]; simp)) hk (fp1.length + 1) fp1 pre hrest
    (fun x hx => ⟨htext x (by rw [hlines]; simp [hx]), hpre x hx⟩)
    (by
      have := length_fileLines_le fp1
      rw [hrest] at this
      simp only [List.length_append, List.length_cons] at this
      omega)
  have hdrop : (a ++ "revision=".toList ++ t).drop a.length = "revision=".toList ++ t := by
    rw [List.append_assoc, List.drop_left]
  rw [hdrop] at hscan
  have hd : isdigit (raw1.headD NUL) = false := by
    rw [fgets_headD content raw1 fp1 hfg]; exact hfirst
  have hscan1 : ∃ t1, (t1 = t ++ [NL] ∨ t1 = t) ∧
      xml_scan 1024 "revision=".toList (fp1.length + 1) fp1
        = some ("revision=".toList ++ t1) := by
    rcases hscan with h | h
    · exact ⟨t ++ [NL], Or.inl rfl, by rw [h, List.append_assoc]⟩
    · exact ⟨t, Or.inr rfl, h⟩
  obtain ⟨t1, ht1, hscan2⟩ := hscan1
  have hxml : svn_read_xml fp1 raw1 1024 2 init_result =
      match sscanf_rev ("revision=".toList ++ t1) with
      | .fault => .fault
      | .ret (some rev) => .ret (true, result_set_revision init_result rev (-1))
      | .ret none => .ret (true, init_result) := by
    simp only [svn_read_xml, hscan2]
  refine ⟨t1, ht1, ?_, ?_⟩
  · intro line fp hfg2
    rw [hfg] at hfg2
    simp only [Option.some.injEq, Prod.mk.injEq] at hfg2
    obtain ⟨rfl, rfl⟩ := hfg2
    exact hxml
  · simp only [svn_get_info, hfg, hd, Bool.false_eq_true, if_false, hxml]
    generalize sscanf_rev ("revision=".toList ++ t1) = o
    cases o with
    | fault => rfl
    | ret x => cases x <;> rfl

set_option maxRecDepth 8000 in
/-- C11, as stated, fails.  In the first entries file the first line that
contains "revision=" is line 1, which `svn_get_info` consumes to tell the
format and `svn_read_xml` never looks at: NULL is returned.  In the second the
marker lies across the end of the 1023 bytes one `fgets` call takes from a
line of 1032 characters, and in the third it follows a NUL byte, where the
string in the buffer has ended: the marker is not found and NULL is returned.
In the fourth the run has 100 digits, which the `sscanf` call writes past the
100 bytes of `rev`. -/
theorem svn_xml_marker_on_first_line :
    ((fileLines entries_xml_first_line).head?
        = some ("<entry revision=".toList ++ quoted "123" ++ ">".toList) ∧
      svn_get_info false ⟨some entries_xml_first_line, none⟩ = .ret none) ∧
    ((fileLines (entries_xml_long_line "123"))[1]?
        = some (List.replicate 1018 ' ' ++ "revision=".toList ++ quoted "123") ∧
      svn_get_info false ⟨some (entries_xml_long_line "123"), none⟩ = .ret none) ∧
    ((fileLines (entries_xml_nul "123"))[1]?
        = some (NUL :: "revision=".toList ++ quoted "123") ∧
      svn_get_info false ⟨some (entries_xml_nul "123"), none⟩ = .ret none) ∧
    svn_get_info false ⟨some entries_xml_long_number, none⟩ = .fault := by
  refine ⟨⟨by decide, by decide⟩, ⟨by decide!, by decide!⟩, ⟨by decide, by decide⟩,
    by decide⟩

/-- C11, amended: for an entries file in the XML-ish format (no wc.db, first
byte no digit, every line shorter than the 1024-byte buffer, no NUL byte) in
which the first line after line 1 that contains "revision=" has its first
"revision=" followed by a double quote, a run `d` of 1 to 99 decimal digits and
a double quote, `svn_get_info` returns a record whose revision is `d` and whose
branch is absent, whatever follows in the line and in the file. -/
theorem svn_xml_revision (have_sqlite : Bool) (content l1 : List Char)
    (pre : List (List Char)) (a d b : List Char) (post : List (List Char))
    (hlines : fileLines content =
      l1 :: (pre ++ (a ++ "revision=".toList ++ (DQUOTE :: d ++ DQUOTE :: b)) :: post))
    (hshort : ∀ l ∈ fileLines content, l.length + 1 < 1024)
    (hnul : NUL ∉ content)
    (hfirst : isdigit (content.headD NUL) = false)
    (hpre : ∀ l ∈ pre, ¬ "revision=".toList <:+: l)
    (ha : ¬ "revision=".toList <:+: a ++ "revision".toList)
    (hd : d ≠ []) (hdigits : ∀ c ∈ d, isdigit c = true) (hlen : d.length < 100) :
    svn_get_info have_sqlite ⟨some content, none⟩ =
      .ret (some { branch := none, revision := some d, modified := false,
                   unknown := false }) := by
  obtain ⟨t1, ht1, _, hinfo⟩ := svn_get_info_xml_text have_sqlite content l1 pre a
    (DQUOTE :: d ++ DQUOTE :: b) post hlines hshort hnul hfirst hpre ha
  have hscanf : sscanf_rev ("revision=".toList ++ t1) = .ret (some d) := by
    rcases ht1 with rfl | rfl
    · have := sscanf_rev_quoted d (b ++ [NL]) hd hdigits hlen
      simp only [List.append_assoc, List.cons_append] at this ⊢
      exact this
    · have := sscanf_rev_quoted d b hd hdigits hlen
      simp only [List.append_assoc, List.cons_append] at this ⊢
      exact this
  rw [hinfo, hscanf]
  rfl

/-- C11, amended, on an XML-ish entries file with `revision="123"` after
a line with `committed-rev="120"`. -/
theorem svn_xml_revision_witness :
    svn_get_info false ⟨some entries_xml, none⟩ =
      .ret (some { branch := none, revision := some "123".toList, modified := false,
                   unknown := false }) :=
  svn_xml_revision false entries_xml ("<?xml version=".toList ++ quoted "1.0" ++ "?>".toList)
    ["<wc-entries>".toList, "<entry".toList, "   committed-rev=".toList ++ quoted "120",
     "   name=".toList ++ quoted ""]
    "   ".toList "123".toList []
    ["   kind=".toList ++ quoted "dir" ++ "/>".toList, "</wc-entries>".toList]
    (by decide) (by decide) (by decide) (by decide) (by decide) (by decide) (by decide)
    (by decide) (by decide)

set_option maxRecDepth 8000 in
/-- C19, as stated, fails on a line that does not fit the buffer and on a NUL
byte: in the first two entries files line 2 contains "revision=" followed by a
quoted word that is no number, but the marker lies across the end of the 1023
bytes one `fgets` call takes, or follows a NUL byte where the string in the
buffer has ended; it is not found, `svn_read_xml` reports failure and NULL is
returned.  In the third file the marker is found and followed by 100 digits,
which the `sscanf` call writes past the 100 bytes of `rev`: `svn_read_xml`
does not get to report success. -/
theorem svn_xml_marker_not_seen :
    ((fileLines (entries_xml_long_line "HEAD"))[1]?
        = some (List.replicate 1018 ' ' ++ "revision=".toList ++ quoted "HEAD") ∧
      (∃ line fp, fgets 1024 (entries_xml_long_line "HEAD") = some (line, fp) ∧
        svn_read_xml fp line 1024 2 init_result = .ret (false, init_result)) ∧
      svn_get_info false ⟨some (entries_xml_long_line "HEAD"), none⟩ = .ret none) ∧
    ((fileLines (entries_xml_nul "HEAD"))[1]?
        = some (NUL :: "revision=".toList ++ quoted "HEAD") ∧
      svn_get_info false ⟨some (entries_xml_nul "HEAD"), none⟩ = .ret none) ∧
    (∃ line fp, fgets 1024 entries_xml_long_number = some (line, fp) ∧
      svn_read_xml fp line 1024 2 init_result = .fault) := by
  refine ⟨⟨by decide!, ⟨_, _, rfl, by decide!⟩, by decide!⟩, ⟨by decide, by decide⟩,
    ⟨_, _, rfl, by decide⟩⟩

/-- C19, amended: for an entries file in the XML-ish format (no wc.db, first
byte no digit, every line shorter than the 1024-byte buffer, no NUL byte) in
which some line after line 1 contains "revision=", `svn_read_xml` never
reports failure; and when in the first such line the first double quote after
the first "revision=" is not followed by a decimal digit (or there is no such
quote), `svn_read_xml` reports success and `svn_get_info` returns a record
whose revision and branch are both absent. -/
theorem svn_xml_marker_without_number (have_sqlite : Bool) (content l1 : List Char)
    (pre : List (List Char)) (a t : List Char) (post : List (List Char))
    (hlines : fileLines content = l1 :: (pre ++ (a ++ "revision=".toList ++ t) :: post))
    (hshort : ∀ l ∈ fileLines content, l.length + 1 < 1024)
    (hnul : NUL ∉ content)
    (hfirst : isdigit (content.headD NUL) = false)
    (hpre : ∀ l ∈ pre, ¬ "revision=".toList <:+: l)
    (ha : ¬ "revision=".toList <:+: a ++ "revision".toList) :
    (∀ line fp r, fgets 1024 content = some (line, fp) →
      svn_read_xml fp line 1024 2 init_result ≠ .ret (false, r)) ∧
    ((∀ u c v, t = u ++ DQUOTE :: c :: v → DQUOTE ∉ u → isdigit c = false) →
      (∀ line fp, fgets 1024 content = some (line, fp) →
        svn_read_xml fp line 1024 2 init_result = .ret (true, init_result)) ∧
      svn_get_info have_sqlite ⟨some content, none⟩ =
        .ret (some { branch := none, revision := none, modified := false,
                     unknown := false })) := by
  obtain ⟨t1, ht1, hxml, hinfo⟩ := svn_get_info_xml_text have_sqlite content l1 pre a
    t post hlines hshort hnul hfirst hpre ha
  constructor
  · intro line fp r hfg
    rw [hxml line fp hfg]
    generalize sscanf_rev ("revision=".toList ++ t1) = o
    cases o with
    | fault => simp
    | ret x => cases x <;> simp
  · intro hq
    have hscanf := sscanf_rev_no_digit t t1 ht1 hq
    constructor
    · intro line fp hfg
      rw [hxml line fp hfg, hscanf]
    · rw [hinfo, hscanf]
      rfl

/-- C19, amended, on an XML-ish entries file whose first `revision=` is
followed by "HEAD" between quotes. -/
theorem svn_xml_marker_without_number_witness :
    svn_get_info false ⟨some entries_xml_no_digits, none⟩ =
      .ret (some { branch := none, revision := none, modified := false,
                   unknown := false }) :=
  ((svn_xml_marker_without_number false entries_xml_no_digits
    ("<?xml version=".toList ++ quoted "1.0" ++ "?>".toList)
    ["<entry".toList] "   ".toList (quoted "HEAD")
    ["   revision=".toList ++ quoted "123" ++ "/>".toList]
    (by decide) (by decide) (by decide) (by decide) (by decide) (by decide)).2
    (by
      intro u c v h hu
      have h1 : quoted "HEAD" = [] ++ DQUOTE :: 'H' :: "EAD".toList ++ [DQUOTE] := rfl
      cases u with
      | nil =>
        rw [h1] at h
        simp only [List.nil_append, List.cons_append, List.cons.injEq] at h
        rw [← h.2.1]
        decide
      | cons x u1 =>
        rw [h1] at h
        simp only [List.nil_append, List.cons_append, List.cons.injEq] at h
        exact absurd (h.1 ▸ List.mem_cons_self _ _) hu)).2

/-! ## The separator after the root URL, and the shape of revisions -/

/-- C20, as stated, fails on a root URL that does not fit the buffer and on a
NUL byte.  With the root `long_root` of 1109 characters on line 6 and
`long_root`, "X", "trunk" on line 5, what `fgets` delivers sixth is the rest of
line 5, which is no prefix of its first 1023 characters; no branch is stored
and NULL is returned.  With the root "http://h/repo" and a NUL byte as the
character that follows it on line 5, the copy of line 5 ends at that byte and
the branch is read from outside the copy: undefined behaviour, not branch
"trunk". -/
theorem svn_custom_separator_long_root :
    (fileLines (entries_long_root 'X'))[4]? = some (long_root ++ 'X' :: "trunk".toList) ∧
    (fileLines (entries_long_root 'X'))[5]? = some long_root ∧
    (∃ line fp, fgets 1024 (entries_long_root 'X') = some (line, fp) ∧
      svn_read_custom fp line 1024 2 init_result = .ret (false, init_result)) ∧
    svn_get_info false ⟨some (entries_long_root 'X'), none⟩ = .ret none ∧
    (fileLines (entries_sep NUL))[4]? = some ("http://h/repo".toList ++ NUL :: "trunk".toList) ∧
    (fileLines (entries_sep NUL))[5]? = some "http://h/repo".toList ∧
    get_branch_name "trunk".toList = some "trunk".toList ∧
    svn_get_info false ⟨some (entries_sep NUL), none⟩ = .fault := by
  refine ⟨by decide!, by decide!, ⟨"10\n".toList, _, rfl, by decide!⟩, by decide!,
    by decide, by decide, by decide, by decide⟩

/-- C20, amended: for an entries file in the custom format (no wc.db, first line
starting with a digit, every line shorter than the 1024-byte buffer, no NUL
byte) with line 6 = `r` and line 5 = `r`, one character `c` and `s`,
`svn_read_custom` stores `get_branch_name s` as the branch, whatever `c` is;
and when the file goes on to line 11, `svn_get_info` returns a record with
that branch. -/
theorem svn_custom_separator (have_sqlite : Bool)
    (content l1 l2 l3 l4 r : List Char) (c : Char) (s : List Char)
    (more : List (List Char))
    (hlines : fileLines content = l1 :: l2 :: l3 :: l4 :: (r ++ c :: s) :: r :: more)
    (hshort : ∀ l ∈ fileLines content, l.length + 1 < 1024)
    (hnul : NUL ∉ content)
    (hdigit : ∃ c1 t, l1 = c1 :: t ∧ isdigit c1 = true) :
    (∃ line fp ok res, fgets 1024 content = some (line, fp) ∧
      svn_read_custom fp line 1024 2 init_result = .ret (ok, res) ∧
      res.branch = get_branch_name s) ∧
    (∀ l7 l8 l9 l10 l11 rest, more = l7 :: l8 :: l9 :: l10 :: l11 :: rest →
      svn_get_info have_sqlite ⟨some content, none⟩ =
        .ret (some { branch := get_branch_name s, revision := some l11, modified := false,
                     unknown := false })) := by
  obtain ⟨c1, t, rfl, hc⟩ := hdigit
  obtain ⟨⟨line, fp, hfg, hcustom⟩, h⟩ := svn_get_info_custom have_sqlite content c1 t _ hlines
    (textLine_of_text content hshort hnul) hc
  have hdrop : (r ++ c :: s).drop (r.length + 1) = s := by
    rw [show r ++ c :: s = (r ++ [c]) ++ s by simp]
    exact List.drop_left' (by simp)
  constructor
  · refine ⟨line, fp, _, _, hfg, hcustom, ?_⟩
    simp only [custom_lines, List.getElem?_cons_succ, List.getElem?_cons_zero,
      List.prefix_append, if_true, hdrop]
    split <;> rfl
  · rintro l7 l8 l9 l10 l11 rest rfl
    rw [h]
    simp [custom_lines, init_result, hdrop]

/-- C20, amended, on the checkout URLs "http://h/repoXtrunk" and
"http://h/repo2/trunk" under the root "http://h/repo". -/
theorem svn_custom_separator_witness :
    svn_get_info false ⟨some entries_glued, none⟩ =
      .ret (some { branch := some "trunk".toList, revision := some "1234".toList,
                   modified := false, unknown := false }) ∧
    svn_get_info false ⟨some entries_sibling, none⟩ =
      .ret (some { branch := none, revision := some "1234".toList,
                   modified := false, unknown := false }) :=
  ⟨(svn_custom_separator false entries_glued "10".toList [] "dir".toList "1234".toList
      "http://h/repo".toList 'X' "trunk".toList [[], [], [], [], "1234".toList, []]
      (by decide) (by decide) (by decide) ⟨_, _, rfl, by decide⟩).2 _ _ _ _ _ _ rfl,
   (svn_custom_separator false entries_sibling "10".toList [] "dir".toList "1234".toList
      "http://h/repo".toList '2' "/trunk".toList [[], [], [], [], "1234".toList, []]
      (by decide) (by decide) (by decide) ⟨_, _, rfl, by decide⟩).2 _ _ _ _ _ _ rfl⟩

/-- Of the bytes one `fgets` call reads only the last can be a newline. -/
theorem read_chunk_NL (n : Nat) (s : List Char) : NL ∉ (read_chunk n s).1.dropLast := by
  induction s generalizing n with
  | nil => cases n <;> simp [read_chunk]
  | cons c cs ih =>
    cases n with
    | zero => simp [read_chunk]
    | succ n =>
      unfold read_chunk
      split
      · simp
      next hc =>
        simp only
        cases hr : (read_chunk n cs).1 with
        | nil => simp
        | cons x t =>
          have := ih n
          rw [hr] at this
          rw [List.dropLast_cons₂, List.mem_cons, not_or]
          exact ⟨Ne.symm hc, this⟩

/-- A string with a newline at most at its end has none after
`chop_newline`. -/
theorem chop_newline_no_NL (l : List Char) (h : NL ∉ l.dropLast) : NL ∉ chop_newline l := by
  unfold chop_newline
  split
  · exact h
  next hlast =>
    intro hmem
    rcases List.eq_nil_or_concat l with rfl | ⟨l1, z, rfl⟩
    · simp at hmem
    · simp only [List.concat_eq_append, List.dropLast_concat] at h
      simp only [List.concat_eq_append, List.getLast?_concat, Option.some.injEq] at hlast
      rw [List.concat_eq_append, List.mem_append, List.mem_singleton] at hmem
      rcases hmem with hmem | hmem
      · exact h hmem
      · exact hlast hmem.symm

/-- The string `fgets` delivers holds no newline once `chop_newline` has been
applied. -/
theorem fgets_chop_no_NL (n : Nat) (s l rest : List Char) (h : fgets n s = some (l, rest)) :
    NL ∉ chop_newline l := by
  cases s with
  | nil => simp [fgets] at h
  | cons c cs =>
    simp only [fgets, Option.some.injEq, Prod.mk.injEq] at h
    obtain ⟨rfl, _⟩ := h
    apply chop_newline_no_NL
    have hchunk := read_chunk_NL (n - 1) (c :: cs)
    obtain ⟨t, ht⟩ := List.takeWhile_prefix (fun c => c != NUL) (l := (read_chunk (n - 1) (c :: cs)).1)
    intro hmem
    apply hchunk
    unfold cstr at hmem
    rw [← ht]
    cases t with
    | nil => simpa using hmem
    | cons x t1 =>
      rw [List.dropLast_append_of_ne_nil _ (by simp)]
      exact List.mem_append_left _ (List.mem_of_mem_dropLast hmem)

/-- What `read_first_line` delivers holds no newline. -/
theorem read_first_line_no_NL (fs : Fs) (d : Nat) (name : List Char) (size : Nat)
    (b : List Char) (h : read_first_line fs d name size = some b) : NL ∉ b := by
  unfold read_first_line at h
  split at h
  next content _ =>
    cases hfg : fgets size content with
    | none => rw [hfg] at h; simp at h
    | some r =>
      obtain ⟨l, rest⟩ := r
      rw [hfg] at h
      simp only [Option.map_some', Option.some.injEq] at h
      rw [← h]
      exact fgets_chop_no_NL size content l rest hfg
  next => exact absurd h (by simp)

/-- A revision stored by lines 64-90 is the first 12 characters of the first
line of HEAD or of another file read with `read_first_line`. -/
theorem git_head_revision (fs : Fs) (options : options_t) (d : Nat) (buf rev : List Char)
    (h : (git_head fs options d buf init_result).revision = some rev) :
    rev = buf.take 12 ∨
      ∃ name b, read_first_line fs d name 1024 = some b ∧ rev = b.take 12 := by
  have hrs : ∀ (r : result_t) (b : List Char),
      result_set_revision r b 12 = { r with revision := some (b.take 12) } := fun _ _ => rfl
  unfold git_head at h
  simp only [hrs, result_set_branch] at h
  cases hor : (options.show_branch || options.show_revision)
  · simp only [hor, Bool.false_eq_true, if_false] at h
    exact absurd h (by simp [init_result])
  · simp only [hor, if_true] at h
    cases hcmp : strncmp_eq "ref: refs/heads/".toList buf "ref: refs/heads/".toList.length
    · simp only [hcmp, Bool.false_eq_true, if_false, Bool.and_false] at h
      left
      exact (Option.some.inj h).symm
    · simp only [hcmp, if_true, Bool.and_true] at h
      cases hsr : options.show_revision
      · simp only [hsr, Bool.false_eq_true, if_false] at h
        exact absurd h (by simp [init_result])
      · simp only [hsr, if_true] at h
        split at h
        next b hb => exact Or.inr ⟨_, b, hb, (Option.some.inj h).symm⟩
        next => exact absurd h (by simp [init_result])

/-- When the line-skipping loop ends normally it has counted up to one past its
limit, and if it ran at all the buffer holds what its last `fgets` read. -/
theorem read_while_some (limit : Nat) (fuel : Nat) :
    ∀ (n : Nat) (fp line : List Char) (n1 : Nat) (fp1 line1 : List Char),
      read_while limit 1024 fuel n fp line = some (n1, fp1, line1) → n + fuel = limit + 1 →
      n1 = limit + 1 ∧ (0 < fuel → ∃ fp0, fgets 1024 fp0 = some (line1, fp1)) := by
  induction fuel with
  | zero =>
    intro n fp line n1 fp1 line1 h hn
    simp only [read_while, Option.some.injEq, Prod.mk.injEq] at h
    exact ⟨by omega, fun h0 => absurd h0 (Nat.lt_irrefl 0)⟩
  | succ fuel ih =>
    intro n fp line n1 fp1 line1 h hn
    rw [read_while] at h
    have hle : n ≤ limit := by omega
    simp only [hle, if_true] at h
    cases hfg : fgets 1024 fp with
    | none => rw [hfg] at h; exact absurd h (by simp)
    | some r =>
      obtain ⟨l, fp2⟩ := r
      rw [hfg] at h
      simp only at h
      obtain ⟨h1, h2⟩ := ih (n + 1) fp2 l n1 fp1 line1 h (by omega)
      refine ⟨h1, fun _ => ?_⟩
      cases fuel with
      | zero =>
        simp only [read_while, Option.some.injEq, Prod.mk.injEq] at h
        obtain ⟨_, rfl, rfl⟩ := h
        exact ⟨fp, hfg⟩
      | succ f => exact h2 (Nat.succ_pos f)

/-- The revision of a record `svn_read_custom` reports success with is what
its last `fgets` read, newline removed. -/
theorem svn_read_custom_revision (fp line : List Char) (res0 r : result_t)
    (h : svn_read_custom fp line 1024 2 res0 = .ret (true, r)) :
    ∃ l fp0 fp1, fgets 1024 fp0 = some (l, fp1) ∧ r.revision = some (chop_newline l) := by
  unfold svn_read_custom at h
  cases h1 : read_while 5 1024 (5 + 1 - 2) 2 fp line with
  | none => rw [h1] at h; exact absurd h (by simp)
  | some x =>
    obtain ⟨n1, fp1, line5⟩ := x
    obtain ⟨hn1, _⟩ := read_while_some 5 (5 + 1 - 2) 2 fp line n1 fp1 line5 h1 rfl
    subst hn1
    rw [h1] at h
    simp only at h
    cases h2 : fgets 1024 fp1 with
    | none => rw [h2] at h; exact absurd h (by simp)
    | some y =>
      obtain ⟨line6, fp2⟩ := y
      rw [h2] at h
      simp only at h
      split at h
      · exact absurd h (by simp)
      · split at h
        · exact absurd h (by simp)
        · cases h3 : read_while 11 1024 (11 + 1 - (5 + 1 + 1)) (5 + 1 + 1) fp2 line6 with
          | none => rw [h3] at h; exact absurd h (by simp)
          | some z =>
            obtain ⟨n3, fp3, line11⟩ := z
            obtain ⟨_, hlast⟩ :=
              read_while_some 11 (11 + 1 - (5 + 1 + 1)) (5 + 1 + 1) fp2 line6 n3 fp3 line11 h3 rfl
            obtain ⟨fp0, hfg⟩ := hlast (by decide)
            rw [h3] at h
            simp only [Outcome.ret.injEq, Prod.mk.injEq, true_and] at h
            exact ⟨line11, fp0, fp3, hfg, by rw [← h]⟩

/-- A number the `sscanf` call of `svn_read_xml` delivers is a non-empty run of
fewer than 100 decimal digits. -/
theorem sscanf_rev_some (p d : List Char) (h : sscanf_rev p = .ret (some d)) :
    d ≠ [] ∧ d.length < 100 ∧ ∀ c ∈ d, isdigit c = true := by
  unfold sscanf_rev at h
  simp only at h
  split at h
  · exact absurd h (by simp)
  · split at h
    · exact absurd h (by simp)
    · split at h
      · exact absurd h (by simp)
      next hne =>
        split at h
        · exact absurd h (by simp)
        next hlen =>
          simp only [Outcome.ret.injEq, Option.some.injEq] at h
          subst h
          exact ⟨hne, Nat.lt_of_not_le hlen, fun c hc => List.mem_takeWhile_imp hc⟩

/-- A record `svn_read_xml` reports success with has no revision or one made
of decimal digits only. -/
theorem svn_read_xml_revision (fp line : List Char) (r : result_t)
    (h : svn_read_xml fp line 1024 2 init_result = .ret (true, r)) :
    r.revision = none ∨
      ∃ d, r.revision = some d ∧ d ≠ [] ∧ d.length < 100 ∧ ∀ c ∈ d, isdigit c = true := by
  unfold svn_read_xml at h
  simp only at h
  split at h
  · exact absurd h (by simp)
  next p _ =>
    cases hs : sscanf_rev p with
    | fault => rw [hs] at h; exact absurd h (by simp)
    | ret x =>
      rw [hs] at h
      cases x with
      | none =>
        simp only [Outcome.ret.injEq, Prod.mk.injEq, true_and] at h
        left
        rw [← h]
        rfl
      | some d =>
        simp only [Outcome.ret.injEq, Prod.mk.injEq, true_and] at h
        right
        refine ⟨d, ?_, sscanf_rev_some p d hs⟩
        rw [← h]
        rfl

/-- C18, as stated, fails: the custom-format parser takes line 11 as it is;
in this entries file line 11 is a date, and it becomes the revision. -/
theorem svn_custom_revision_not_a_number :
    svn_get_info false ⟨some entries_date, none⟩ =
      .ret (some { branch := some "trunk".toList,
                   revision := some "2009-05-01T12:00:00.000000Z".toList,
                   modified := false, unknown := false }) ∧
    ¬ ∀ c ∈ "2009-05-01T12:00:00.000000Z".toList, isdigit c = true := by
  constructor <;> decide

/-- C18, amended: a revision in a record returned by `git_get_info` holds no
newline and has at most 12 characters; a revision in a record returned by
`svn_get_info` without wc.db (custom or XML-ish parser) holds no newline, and
when the first byte of the entries file is no digit (XML-ish parser) it
consists of decimal digits only. -/
theorem revision_single_line :
    (∀ (fs : Fs) (options : options_t) (dir : Nat) (r : result_t) (dir1 : Nat)
        (rev : List Char),
      git_get_info fs options dir = .ret (some r, dir1) → r.revision = some rev →
      NL ∉ rev ∧ rev.length ≤ 12) ∧
    (∀ (have_sqlite : Bool) (content : List Char) (r : result_t) (rev : List Char),
      svn_get_info have_sqlite ⟨some content, none⟩ = .ret (some r) →
      r.revision = some rev →
      NL ∉ rev ∧
      (isdigit (content.headD NUL) = false → ∀ c ∈ rev, isdigit c = true)) := by
  constructor
  · intro fs options dir r dir1 rev h hrev
    obtain ⟨cwd, d, buf, _, _, hread, _, _, hv, _⟩ :=
      git_get_info_record fs options dir r dir1 h
    rw [hv] at hrev
    rcases git_head_revision fs options d buf rev hrev with rfl | ⟨name, b, hb, rfl⟩
    · exact ⟨fun hm => read_first_line_no_NL fs d _ 1024 buf hread (List.mem_of_mem_take hm),
        List.length_take_le _ _⟩
    · exact ⟨fun hm => read_first_line_no_NL fs d name 1024 b hb (List.mem_of_mem_take hm),
        List.length_take_le _ _⟩
  · intro have_sqlite content r rev h hrev
    cases hfg : fgets 1024 content with
    | none =>
      simp only [svn_get_info, hfg] at h
      exact absurd h (by simp)
    | some x =>
      obtain ⟨line, fp⟩ := x
      have hhead := fgets_headD content line fp hfg
      simp only [svn_get_info, hfg] at h
      cases hd : isdigit (line.headD NUL) with
      | true =>
        simp only [hd, if_true] at h
        cases hc : svn_read_custom fp line 1024 2 init_result with
        | fault =>
          simp only [Nat.reduceAdd] at h
          rw [hc] at h
          exact absurd h (by simp)
        | ret y =>
          obtain ⟨ok, res⟩ := y
          simp only [Nat.reduceAdd] at h
          rw [hc] at h
          cases ok with
          | false => exact absurd h (by simp)
          | true =>
            simp only [if_true, Outcome.ret.injEq, Option.some.injEq] at h
            subst h
            obtain ⟨l, fp0, fp1, hl, hr⟩ := svn_read_custom_revision fp line init_result res hc
            rw [hr] at hrev
            have hrev1 : chop_newline l = rev := Option.some.inj hrev
            rw [← hrev1]
            refine ⟨fgets_chop_no_NL 1024 fp0 l fp1 hl, fun hno => ?_⟩
            rw [← hhead, hd] at hno
            exact absurd hno (by simp)
      | false =>
        simp only [hd, Bool.false_eq_true, if_false] at h
        cases hc : svn_read_xml fp line 1024 2 init_result with
        | fault =>
          simp only [Nat.reduceAdd] at h
          rw [hc] at h
          exact absurd h (by simp)
        | ret y =>
          obtain ⟨ok, res⟩ := y
          simp only [Nat.reduceAdd] at h
          rw [hc] at h
          cases ok with
          | false => exact absurd h (by simp)
          | true =>
            simp only [if_true, Outcome.ret.injEq, Option.some.injEq] at h
            subst h
            rcases svn_read_xml_revision fp line res hc with hn | ⟨dg, hdg, h1, h2, h3⟩
            · rw [hn] at hrev
              exact absurd hrev (by simp)
            · rw [hdg] at hrev
              have : dg = rev := Option.some.inj hrev
              subst this
              refine ⟨fun hm => ?_, fun _ => h3⟩
              have := h3 NL hm
              exact absurd this (by decide)

/-- C18, amended, on the detached HEAD "abcdef0123456789" and on an XML-ish
entries file at revision 123. -/
theorem revision_single_line_witness :
    (NL ∉ "abcdef012345".toList ∧ "abcdef012345".toList.length ≤ 12) ∧
    (NL ∉ "123".toList ∧ ∀ c ∈ "123".toList, isdigit c = true) :=
  ⟨revision_single_line.1 fs_detached ⟨true, true, false, false⟩ 0
    ⟨some "(unknown)".toList, some "abcdef012345".toList, false, false⟩ 0
    "abcdef012345".toList rfl rfl,
   (revision_single_line.2 false entries_xml ⟨none, some "123".toList, false, false⟩
      "123".toList (by decide) rfl).1,
   (revision_single_line.2 false entries_xml ⟨none, some "123".toList, false, false⟩
      "123".toList (by decide) rfl).2 (by decide)⟩

end Vcprompt
